import Mathlib

/-!
Verification of the query-construction-and-validation pipeline of the
sql-query-generator repository: the dialect-aware statement builder, the
input validator (identifier/integer rules plus injection-pattern detection
and log redaction), and the per-caller sliding-window rate limiter.

The repository ships only driver scripts (`examples.py`, `security_tests.py`);
the core module `sql_query_generator` they import is not part of the visible
sources.  Every definition of that core below is therefore modelled from the
specification, as indicated in its doc comment.
-/

namespace SQLGen

/-! ## Character and string utilities -/

/-- Characters that may continue a placeholder token after its marker
character: ASCII letters and digits (`param1`, `1`, ...). -/
def isTokChar (c : Char) : Bool := c.isAlpha || c.isDigit

/-- The ASCII digit character for a value below ten. -/
def digitChar (n : Nat) : Char := Char.ofNat (48 + n)

/-- Decimal digit list of a natural number, fuel-driven so that it is
structural and kernel-computable. -/
def natCharsAux : Nat → Nat → List Char
  | 0, _ => []
  | fuel + 1, n =>
    if n < 10 then [digitChar n]
    else natCharsAux fuel (n / 10) ++ [digitChar (n % 10)]

/-- Decimal digit characters of a natural number. -/
def natChars (n : Nat) : List Char := natCharsAux (n + 1) n

/-- Lower-casing of a single ASCII character. -/
def lowerC (c : Char) : Char :=
  if 65 ≤ c.toNat ∧ c.toNat ≤ 90 then Char.ofNat (c.toNat + 32) else c

/-- Lower-casing of a character list. -/
def lowerList (l : List Char) : List Char := l.map lowerC

/-- Scans a character list and returns true when the predicate holds of some
suffix. -/
def scanPred (p : List Char → Bool) : List Char → Bool
  | [] => p []
  | c :: t => p (c :: t) || scanPred p t

/-- Substring test on character lists: does `needle` occur contiguously in
`hay`? -/
def containsSub (needle hay : List Char) : Bool :=
  scanPred (fun s => needle.isPrefixOf s) hay

/-- A character list avoiding a given (marker) character. -/
def mfree (m : Char) (l : List Char) : Prop := ∀ c ∈ l, c ≠ m

instance (m : Char) (l : List Char) : Decidable (mfree m l) :=
  inferInstanceAs (Decidable (∀ c ∈ l, c ≠ m))

/-- A list is a valid continuation after a placeholder token: it is empty or
starts with a character that neither continues a token nor starts one. -/
def boundary (m : Char) : List Char → Prop
  | [] => True
  | c :: _ => isTokChar c = false ∧ c ≠ m

/-! ## Core enumerations and records, modelled from the spec -/

/-- Modelled from the spec: the five supported database families
(`DatabaseType` in the missing core module). -/
inductive DatabaseType
  | postgresql
  | mysql
  | sqlite
  | mssql
  | oracle
deriving DecidableEq, Repr

/-- Modelled from the spec: the cross-cutting strictness parameter
(`SecurityLevel` in the missing core module). -/
inductive SecurityLevel
  | strict
  | normal
  | permissive
deriving DecidableEq, Repr

/-- Modelled from the spec: the classified failures of the two disjoint
families, ValidationException (invalidIdentifier, outOfRange, tooLong,
malformedEmail) and SecurityException (injectionDetected, rateLimitExceeded). -/
inductive QueryError
  | invalidIdentifier
  | outOfRange
  | tooLong
  | malformedEmail
  | injectionDetected
  | rateLimitExceeded
deriving DecidableEq, Repr

/-- Modelled from the spec: the immutable result of a generate call, carrying
the statement text, the ordered bound values, and the dialect. -/
structure GeneratedQuery where
  sql_text : String
  parameters : List String
  dialect : DatabaseType
deriving DecidableEq, Repr

/-- Modelled from the spec: a structured WHERE condition consuming exactly one
placeholder, with a column, a comparison operator, and the bound value. -/
structure Cond where
  col : String
  op : String
  value : String
deriving DecidableEq, Repr

/-- Modelled from the spec: a JOIN clause, requiring a type
(INNER/LEFT/RIGHT/FULL), the joined table, and an `on` equality predicate
between two columns; no implicit join inference is performed. -/
structure Join where
  jtype : String
  jtable : String
  onLeft : String
  onRight : String
deriving DecidableEq, Repr

/-- Modelled from the spec: a structured HAVING condition over an aggregate
of a column, consuming exactly one placeholder after the WHERE
placeholders. -/
structure HavingCond where
  fn : String
  arg : String
  op : String
  value : String
deriving DecidableEq, Repr

/-- Modelled from the spec: a CREATE TABLE column definition,
`name type [NOT NULL] [DEFAULT x]`; the type and default are structural DDL
text rendered inline, not bound values. -/
structure ColumnDef where
  name : String
  ctype : String
  notNull : Bool
  dflt : Option String
deriving DecidableEq, Repr

/-- Modelled from the spec: a `FOREIGN KEY (col) REFERENCES table(col)`
clause of a CREATE TABLE statement. -/
structure ForeignKey where
  column : String
  refTable : String
  refColumn : String
deriving DecidableEq, Repr

/-! ## Input validator, modelled from the spec -/

/-- Characters allowed in the head position of an identifier:
`[A-Za-z_]`. -/
def identHeadChar (c : Char) : Bool := c.isAlpha || c = '_'

/-- Characters allowed in the tail of an identifier: `[A-Za-z0-9_]`. -/
def identTailChar (c : Char) : Bool := c.isAlpha || c.isDigit || c = '_'

/-- Modelled from the spec: the shape check of `validate_identifier` at
NORMAL level, the regular expression `^[A-Za-z_][A-Za-z0-9_]*$`. -/
def identOk (s : String) : Bool :=
  match s.data with
  | [] => false
  | c :: t => identHeadChar c && t.all identTailChar

/-- Modelled from the spec: at PERMISSIVE level the tail character set is
widened to include `.` for qualified names. -/
def identTailCharP (c : Char) : Bool := identTailChar c || c = '.'

/-- Modelled from the spec: lower-cased reserved keywords rejected as
identifiers at STRICT level. -/
def reservedKeywords : List (List Char) :=
  ["select".data, "insert".data, "update".data, "delete".data,
   "drop".data, "table".data, "where".data, "from".data]

/-- Modelled from the spec: the maximum identifier length. -/
def maxIdentLength : Nat := 64

/-- Modelled from the spec: identifier shape check at a given security
level. -/
def identOkAt (lvl : SecurityLevel) (s : String) : Bool :=
  match lvl with
  | .normal => identOk s
  | .permissive =>
    (match s.data with
     | [] => false
     | c :: t => identHeadChar c && t.all identTailCharP)
  | .strict => identOk s && !(reservedKeywords.contains (lowerList s.data))

/-- Modelled from the spec: `validate_identifier` accepts exactly the
identifiers passing the level's shape check up to the maximum length and
returns them unchanged; it fails with `InvalidIdentifier` otherwise,
including for empty input. -/
def validate_identifier (s : String) (lvl : SecurityLevel) :
    Except QueryError String :=
  if identOkAt lvl s ∧ s.length ≤ maxIdentLength then .ok s
  else .error .invalidIdentifier

/-- Modelled from the spec: `validate_integer` fails with `OutOfRange` when
`value < min_val or value > max_val` and otherwise returns the value
unchanged; bounds are inclusive. -/
def validate_integer (v minVal maxVal : Int) : Except QueryError Int :=
  if v < minVal ∨ v > maxVal then .error .outOfRange else .ok v

/-! ## Injection-pattern detection, modelled from the spec -/

/-- Drops leading spaces. -/
def dropSpaces : List Char → List Char
  | ' ' :: t => dropSpaces t
  | l => l

/-- Splits a character list at the first single quote, returning the part
before it and the remainder after it. -/
def splitAtQuote : List Char → Option (List Char × List Char)
  | [] => none
  | '\'' :: t => some ([], t)
  | c :: t => (splitAtQuote t).map (fun p => (c :: p.1, p.2))

/-- Matcher for a quoted boolean tautology at the head of the input: a quoted
literal compared for equality against the same literal again, as in
`'x'='x`. -/
def tautQuotedAt (l : List Char) : Bool :=
  match l with
  | '\'' :: rest =>
    match splitAtQuote rest with
    | some (s, '=' :: '\'' :: rest2) => !s.isEmpty && s.isPrefixOf rest2
    | _ => false
  | _ => false

/-- Modelled from the spec: the quote-escape pattern class (`'--`, `'/*`). -/
def classQuoteEscape (l : List Char) : Bool :=
  containsSub ("'--".data) l || containsSub ("'/*".data) l

/-- Modelled from the spec: the boolean-tautology pattern class
(`OR 1=1`, `OR 'x'='x'`), evaluated on lower-cased text. -/
def classTautology (l : List Char) : Bool :=
  containsSub ("or 1=1".data) l ||
    scanPred (fun s =>
      ("or ".data).isPrefixOf s && tautQuotedAt (s.drop 3)) l

/-- Modelled from the spec: DML/DDL keywords that mark a stacked statement
after a semicolon. -/
def stackedKeywords : List (List Char) :=
  ["select".data, "insert".data, "update".data, "delete".data,
   "drop".data, "create".data, "alter".data, "truncate".data, "exec".data]

/-- Modelled from the spec: the stacked-statement pattern class, a `;`
followed (after spaces) by a DML/DDL keyword, on lower-cased text. -/
def classStacked (l : List Char) : Bool :=
  scanPred (fun s =>
    match s with
    | ';' :: rest =>
      stackedKeywords.any (fun k => k.isPrefixOf (dropSpaces rest))
    | _ => false) l

/-- Modelled from the spec: the UNION-based exfiltration pattern class, on
lower-cased text. -/
def classUnion (l : List Char) : Bool :=
  containsSub ("union select".data) l

/-- Modelled from the spec: the timing-attack pattern class (`SLEEP(`,
`WAITFOR DELAY`, `BENCHMARK(`), on lower-cased text. -/
def classTiming (l : List Char) : Bool :=
  containsSub ("sleep(".data) l || containsSub ("waitfor delay".data) l ||
    containsSub ("benchmark(".data) l

/-- Modelled from the spec: the privileged-procedure pattern class
(`EXEC xp_`, `sp_`), on lower-cased text. -/
def classPrivileged (l : List Char) : Bool :=
  containsSub ("exec xp_".data) l || containsSub ("sp_".data) l

/-- The logical OR across the pattern classes, on already lower-cased text;
there is no scoring or confidence threshold. -/
def detectCore (l : List Char) : Bool :=
  classQuoteEscape l || classTautology l || classStacked l ||
    classUnion l || classTiming l || classPrivileged l

/-- Modelled from the spec: `detect_injection_attempt` evaluates the text
against the fixed set of pattern classes, case-insensitively, as a logical OR
across classes with no scoring threshold. -/
def detect_injection_attempt (s : String) : Bool :=
  detectCore (lowerList s.data)

/-! ## Log redaction, modelled from the spec -/

/-- Number of digit characters in a list. -/
def countDigits (l : List Char) : Nat := (l.filter Char.isDigit).length

/-- Modelled from the spec: the fixed card redaction token (the tests expect
`[REDACTED-CARD]`). -/
def cardToken : List Char := "[REDACTED-CARD]".data

/-- Modelled from the spec: the fixed SSN redaction token. -/
def ssnToken : List Char := "[REDACTED-SSN]".data

/-- Emits a maximal digit-and-dash run: it is replaced by the card token when
it carries a payment-card-shaped count of 13 to 19 digits and is kept
verbatim otherwise. -/
def emitRun (run : List Char) : List Char :=
  if 13 ≤ countDigits run ∧ countDigits run ≤ 19 then cardToken else run

/-- Modelled from the spec: the card-redaction pass, replacing
payment-card-shaped digit sequences (13 to 19 digits, optionally grouped by
dashes) with the card token.  The accumulator holds the current
digit-and-dash run in reverse. -/
def cardAuto : List Char → List Char → List Char
  | [], run => emitRun run.reverse
  | c :: t, run =>
    if c.isDigit || c = '-' then cardAuto t (c :: run)
    else emitRun run.reverse ++ c :: cardAuto t []

/-- Card-redaction over a character list. -/
def replaceCard (l : List Char) : List Char := cardAuto l []

/-- Modelled from the spec: the SSN-redaction pass, replacing
`ddd-dd-dddd`-shaped sequences with the SSN token. -/
def replaceSSN : List Char → List Char
  | a :: b :: c :: '-' :: d :: e :: '-' :: f :: g :: h :: i :: t =>
    if ([a, b, c, d, e, f, g, h, i].all Char.isDigit) then
      ssnToken ++ replaceSSN t
    else
      a :: replaceSSN (b :: c :: '-' :: d :: e :: '-' :: f :: g :: h :: i :: t)
  | c :: t => c :: replaceSSN t
  | [] => []

/-- Drops a leading run of non-space characters. -/
def dropNonSpace : List Char → List Char
  | [] => []
  | c :: t => if c = ' ' then c :: t else dropNonSpace t

/-- Modelled from the spec: the password-redaction pass, replacing
`password=...` and `pwd=...` key-value pairs with a fixed redaction, on a
fuel argument to stay structural. -/
def pwdAux : Nat → List Char → List Char
  | 0, l => l
  | _ + 1, [] => []
  | fuel + 1, c :: t =>
    if ("password=".data).isPrefixOf (c :: t) then
      ("password=[REDACTED]".data) ++ pwdAux fuel (dropNonSpace (List.drop 8 t))
    else if ("pwd=".data).isPrefixOf (c :: t) then
      ("pwd=[REDACTED]".data) ++ pwdAux fuel (dropNonSpace (List.drop 3 t))
    else c :: pwdAux fuel t

/-- Password-redaction over a character list. -/
def replacePwd (l : List Char) : List Char := pwdAux l.length l

/-- Modelled from the spec: the truncation marker appended when the redacted
text is cut to the maximum length (the tests expect `...[TRUNCATED]`). -/
def truncMarker : List Char := "...[TRUNCATED]".data

/-- Modelled from the spec: `sanitize_for_logging` replaces card-shaped,
SSN-shaped and password key-value substrings with fixed redaction tokens,
then truncates the result to `max_length` characters, appending the
truncation marker when truncation occurred.  It is total: it never fails. -/
def sanitize_for_logging (s : String) (maxLength : Nat) : String :=
  let r := replacePwd (replaceSSN (replaceCard s.data))
  if r.length ≤ maxLength then ⟨r⟩
  else ⟨r.take maxLength ++ truncMarker⟩

/-! ## Rate limiter, modelled from the spec -/

/-- Modelled from the spec: the limiter state, one ordered timestamp window
per caller identity, in-memory only. -/
def RateState : Type := List (String × List Nat)

/-- The timestamp window recorded for an identity (empty for unknown
identities). -/
def lookupW (st : RateState) (id : String) : List Nat :=
  match st with
  | [] => []
  | (k, v) :: t => if k = id then v else lookupW t id

/-- Replaces the timestamp window recorded for an identity, creating the
entry on first use. -/
def setW (st : RateState) (id : String) (v : List Nat) : RateState :=
  match st with
  | [] => [(id, v)]
  | (k, w) :: t => if k = id then (id, v) :: t else (k, w) :: setW t id v

/-- Modelled from the spec: the lazy purge, dropping timestamps older than
`now - window_seconds`. -/
def purge (now window : Nat) (ts : List Nat) : List Nat :=
  ts.filter (fun t => now ≤ t + window)

/-- Modelled from the spec: the limiter's admission check, the spec's
`admit(identity, max_requests, window_seconds)`: it purges stale timestamps,
appends `now` and admits when the remaining count is strictly below
`max_requests`, and otherwise rejects without mutating state. -/
def admitRequest (st : RateState) (id : String) (maxRequests window now : Nat) :
    Bool × RateState :=
  let ts := purge now window (lookupW st id)
  if ts.length < maxRequests then (true, setW st id (ts ++ [now]))
  else (false, st)

/-- Runs a sequence of admission checks at the given call times for one
identity, threading the limiter state, and returns the admission verdicts in
call order. -/
def admitSeq (st : RateState) (id : String) (maxRequests window : Nat) :
    List Nat → List Bool
  | [] => []
  | t :: ts =>
    let r := admitRequest st id maxRequests window t
    r.1 :: admitSeq r.2 id maxRequests window ts

/-! ## Dialect profile and placeholder rendering, modelled from the spec -/

/-- Modelled from the spec: the marker character opening a placeholder token
in each dialect's parameter-binding convention. -/
def markerChar : DatabaseType → Char
  | .postgresql => '$'
  | .mysql => '?'
  | .sqlite => '?'
  | .mssql => '@'
  | .oracle => ':'

/-- Modelled from the spec: the token characters following the marker of the
n-th placeholder (`$n`, `?`, `@paramN`, `:paramN`). -/
def phTail : DatabaseType → Nat → List Char
  | .postgresql, n => natChars n
  | .mysql, _ => []
  | .sqlite, _ => []
  | .mssql, n => ("param".data) ++ natChars n
  | .oracle, n => ("param".data) ++ natChars n

/-- The character list of the n-th placeholder of a dialect. -/
def phChars (d : DatabaseType) (n : Nat) : List Char :=
  markerChar d :: phTail d n

/-- The n-th placeholder of a dialect, as a string. -/
def placeholder (d : DatabaseType) (n : Nat) : String := ⟨phChars d n⟩

/-- The expected left-to-right placeholder tokens `ph i, ph (i+1), ...` of a
statement carrying `count` placeholders numbered from `i`. -/
def phSeq (d : DatabaseType) (i : Nat) : Nat → List (List Char)
  | 0 => []
  | n + 1 => phChars d i :: phSeq d (i + 1) n

/-- Modelled from the spec: whether the dialect profile supports a
`RETURNING` clause. -/
def supportsReturning : DatabaseType → Bool
  | .postgresql => true
  | _ => false

/-! ## Statement rendering, modelled from the spec -/

/-- Comma-separated join of identifier strings. -/
def commaJoin : List String → List Char
  | [] => []
  | [c] => c.data
  | c :: cs => c.data ++ (", ".data) ++ commaJoin cs

/-- Comma-separated placeholders `ph i, ph (i+1), ...` of a given count. -/
def phJoin (d : DatabaseType) (i : Nat) : Nat → List Char
  | 0 => []
  | 1 => phChars d i
  | n + 2 => phChars d i ++ (", ".data) ++ phJoin d (i + 1) (n + 1)

/-- Modelled from the spec: the `SET` clause of an UPDATE, every entry
consuming exactly one placeholder in declaration order. -/
def setClause (d : DatabaseType) (i : Nat) : List String → List Char
  | [] => []
  | [c] => c.data ++ (" = ".data) ++ phChars d i
  | c :: cs => c.data ++ (" = ".data) ++ phChars d i ++ (", ".data) ++ setClause d (i + 1) cs

/-- Modelled from the spec: a WHERE clause of structured conditions joined by
`AND`, each consuming exactly one placeholder in emission order. -/
def whereClause (d : DatabaseType) (i : Nat) : List Cond → List Char
  | [] => []
  | [c] => c.col.data ++ [' '] ++ c.op.data ++ [' '] ++ phChars d i
  | c :: cs =>
    c.col.data ++ [' '] ++ c.op.data ++ [' '] ++ phChars d i ++ (" AND ".data) ++
      whereClause d (i + 1) cs

/-- The optional WHERE tail of a statement: empty for no conditions,
otherwise the keyword followed by the rendered conditions. -/
def whereTail (d : DatabaseType) (i : Nat) : List Cond → List Char
  | [] => []
  | c :: cs => (" WHERE ".data) ++ whereClause d i (c :: cs)

/-- Modelled from the spec: the RETURNING tail of an INSERT, rendered only
when the dialect profile's `supports_returning` is true; otherwise the
argument is accepted but silently has no textual effect. -/
def retClause (d : DatabaseType) (returning : List String) : List Char :=
  if supportsReturning d ∧ returning ≠ [] then
    (" RETURNING ".data) ++ commaJoin returning
  else []

/-- Modelled from the spec: the `TOP n` limit chunk relocated to immediately
after `SELECT` on MSSQL. -/
def topClause (d : DatabaseType) (limit : Option Nat) : List Char :=
  match d, limit with
  | .mssql, some n => ("TOP ".data) ++ natChars n ++ [' ']
  | _, _ => []

/-- Modelled from the spec: the trailing `LIMIT n` chunk on the dialects
that keep the limit at the end. -/
def limitClause (d : DatabaseType) (limit : Option Nat) : List Char :=
  match d, limit with
  | .mssql, _ => []
  | _, some n => (" LIMIT ".data) ++ natChars n
  | _, none => []

/-- Modelled from the spec: the rendered text of an INSERT statement,
`INSERT INTO t (cols) VALUES (placeholders)`, with a `RETURNING` clause only
when the dialect profile supports it. -/
def renderInsert (d : DatabaseType) (table : String) (cols : List String)
    (returning : List String) : List Char :=
  ("INSERT INTO ".data) ++ table.data ++ (" (".data) ++ commaJoin cols ++
    (") VALUES (".data) ++ phJoin d 1 cols.length ++ [')'] ++
    retClause d returning

/-- Modelled from the spec: the rendered text of an UPDATE statement; the
WHERE placeholders continue the numbering after the SET placeholders. -/
def renderUpdate (d : DatabaseType) (table : String) (setCols : List String)
    (conds : List Cond) : List Char :=
  ("UPDATE ".data) ++ table.data ++ (" SET ".data) ++ setClause d 1 setCols ++
    whereTail d (setCols.length + 1) conds

/-- Modelled from the spec: the rendered text of a DELETE statement; a DELETE
with no WHERE conditions is permitted. -/
def renderDelete (d : DatabaseType) (table : String) (conds : List Cond) :
    List Char :=
  ("DELETE FROM ".data) ++ table.data ++ whereTail d 1 conds

/-- Modelled from the spec: JOIN clauses rendered in the caller-supplied
order, each with its type, the joined table, and the `on` predicate. -/
def joinsChunk : List Join → List Char
  | [] => []
  | j :: js =>
    [' '] ++ j.jtype.data ++ (" JOIN ".data) ++ j.jtable.data ++
      (" ON ".data) ++ j.onLeft.data ++ (" = ".data) ++ j.onRight.data ++
      joinsChunk js

/-- The optional GROUP BY tail of a SELECT. -/
def groupByTail : List String → List Char
  | [] => []
  | g :: gs => (" GROUP BY ".data) ++ commaJoin (g :: gs)

/-- The optional HAVING tail of a SELECT; its single placeholder continues
the numbering after the WHERE placeholders. -/
def havingTail (d : DatabaseType) (i : Nat) : Option HavingCond → List Char
  | none => []
  | some h =>
    (" HAVING ".data) ++ h.fn.data ++ ['('] ++ h.arg.data ++ (") ".data) ++
      h.op.data ++ [' '] ++ phChars d i

/-- One ORDER BY item, `column direction`. -/
def orderItem (p : String × String) : List Char :=
  p.1.data ++ [' '] ++ p.2.data

/-- Comma-separated ORDER BY items. -/
def orderJoin : List (String × String) → List Char
  | [] => []
  | [p] => orderItem p
  | p :: ps => orderItem p ++ (", ".data) ++ orderJoin ps

/-- The optional ORDER BY tail of a SELECT. -/
def orderByTail : List (String × String) → List Char
  | [] => []
  | p :: ps => (" ORDER BY ".data) ++ orderJoin (p :: ps)

/-- Modelled from the spec: the rendered text of a SELECT statement,
`SELECT cols FROM tables [JOIN...] [WHERE...] [GROUP BY...] [HAVING...]
[ORDER BY...] [LIMIT n]`; the limit renders as the dialect's limit syntax,
`TOP n` relocated to immediately after `SELECT` for MSSQL and a trailing
`LIMIT n` otherwise. -/
def renderSelect (d : DatabaseType) (tables cols : List String)
    (joins : List Join) (conds : List Cond) (groupBy : List String)
    (having : Option HavingCond) (orderBy : List (String × String))
    (limit : Option Nat) : List Char :=
  ("SELECT ".data) ++ topClause d limit ++ commaJoin cols ++
    (" FROM ".data) ++ commaJoin tables ++ joinsChunk joins ++
    whereTail d 1 conds ++ groupByTail groupBy ++
    havingTail d (conds.length + 1) having ++ orderByTail orderBy ++
    limitClause d limit

/-- One CREATE TABLE column definition,
`name type [NOT NULL] [DEFAULT x]`. -/
def colDefChunk (c : ColumnDef) : List Char :=
  c.name.data ++ [' '] ++ c.ctype.data ++
    (if c.notNull then (" NOT NULL".data) else []) ++
    (match c.dflt with
     | none => []
     | some x => (" DEFAULT ".data) ++ x.data)

/-- Comma-separated column definitions. -/
def colDefsJoin : List ColumnDef → List Char
  | [] => []
  | [c] => colDefChunk c
  | c :: cs => colDefChunk c ++ (", ".data) ++ colDefsJoin cs

/-- The optional single-column PRIMARY KEY clause. -/
def pkChunk : Option String → List Char
  | none => []
  | some k => (", PRIMARY KEY (".data) ++ k.data ++ [')']

/-- One FOREIGN KEY clause. -/
def fkChunk (f : ForeignKey) : List Char :=
  (", FOREIGN KEY (".data) ++ f.column.data ++ (") REFERENCES ".data) ++
    f.refTable.data ++ ['('] ++ f.refColumn.data ++ [')']

/-- The FOREIGN KEY clauses in caller order. -/
def fksChunk : List ForeignKey → List Char
  | [] => []
  | f :: fs => fkChunk f ++ fksChunk fs

/-- Modelled from the spec: the rendered text of a CREATE TABLE statement,
column definitions, an optional single-column PRIMARY KEY and zero or more
FOREIGN KEY clauses, comma-separated and wrapped in
`CREATE TABLE t (...)`; it consumes no placeholders and binds no
parameters. -/
def renderCreate (table : String) (cols : List ColumnDef)
    (pk : Option String) (fks : List ForeignKey) : List Char :=
  ("CREATE TABLE ".data) ++ table.data ++ (" (".data) ++ colDefsJoin cols ++
    pkChunk pk ++ fksChunk fks ++ [')']

/-! ## Query generator, modelled from the spec -/

/-- Modelled from the spec: the generator's construction parameters. -/
structure GenConfig where
  dialect : DatabaseType
  security_level : SecurityLevel
  enable_rate_limit : Bool
  max_requests : Nat
  window_seconds : Nat
deriving Repr

/-- Fail-fast validation of a list of table identifiers: the first violation
aborts the chain. -/
def validateIdents (lvl : SecurityLevel) : List String → Except QueryError Unit
  | [] => .ok ()
  | s :: t =>
    match validate_identifier s lvl with
    | .ok _ => validateIdents lvl t
    | .error e => .error e

/-- Modelled from the spec: a projected column is either the `*` wildcard,
which passes the generator's structural column validation at every security
level, or a validated identifier. -/
def validate_column (lvl : SecurityLevel) (s : String) :
    Except QueryError String :=
  if s = "*" then .ok s else validate_identifier s lvl

/-- Fail-fast validation of a list of projected columns. -/
def validateCols (lvl : SecurityLevel) : List String → Except QueryError Unit
  | [] => .ok ()
  | s :: t =>
    match validate_column lvl s with
    | .ok _ => validateCols lvl t
    | .error e => .error e

/-- Modelled from the spec: the comparison operators accepted in structured
conditions. -/
def opWhitelist : List String := ["=", "<", ">", "<=", ">=", "<>", "!=", "LIKE"]

/-- Fail-fast validation of structured conditions: the column must be a valid
identifier and the operator must be whitelisted. -/
def validateConds (lvl : SecurityLevel) : List Cond → Except QueryError Unit
  | [] => .ok ()
  | c :: t =>
    match validate_identifier c.col lvl with
    | .error e => .error e
    | .ok _ =>
      if opWhitelist.contains c.op then validateConds lvl t
      else .error .invalidIdentifier

/-- Modelled from the spec: the numeric bound applied to a LIMIT value via
`validate_integer`. -/
def validateLimit : Option Nat → Except QueryError Unit
  | none => .ok ()
  | some n =>
    match validate_integer (n : Int) 1 1000000 with
    | .ok _ => .ok ()
    | .error e => .error e

/-- Modelled from the spec: the accepted JOIN types
(INNER/LEFT/RIGHT/FULL). -/
def joinTypeWhitelist : List String := ["INNER", "LEFT", "RIGHT", "FULL"]

/-- Modelled from the spec: the aggregate functions accepted in a HAVING
condition. -/
def aggWhitelist : List String := ["COUNT", "SUM", "AVG", "MIN", "MAX"]

/-- Modelled from the spec: the accepted ORDER BY directions. -/
def orderDirWhitelist : List String := ["ASC", "DESC"]

/-- Fail-fast validation of JOIN clauses: the type must be whitelisted and
the table and both `on` columns must be valid identifiers. -/
def validateJoins (lvl : SecurityLevel) : List Join → Except QueryError Unit
  | [] => .ok ()
  | j :: js =>
    if joinTypeWhitelist.contains j.jtype then
      match validate_identifier j.jtable lvl with
      | .error e => .error e
      | .ok _ =>
        match validate_identifier j.onLeft lvl with
        | .error e => .error e
        | .ok _ =>
          match validate_identifier j.onRight lvl with
          | .error e => .error e
          | .ok _ => validateJoins lvl js
    else .error .invalidIdentifier

/-- Fail-fast validation of the optional HAVING condition: whitelisted
aggregate, identifier argument, whitelisted operator. -/
def validateHaving (lvl : SecurityLevel) :
    Option HavingCond → Except QueryError Unit
  | none => .ok ()
  | some h =>
    if aggWhitelist.contains h.fn then
      match validate_identifier h.arg lvl with
      | .error e => .error e
      | .ok _ =>
        if opWhitelist.contains h.op then .ok ()
        else .error .invalidIdentifier
    else .error .invalidIdentifier

/-- Fail-fast validation of ORDER BY items: identifier column and
whitelisted direction. -/
def validateOrderBy (lvl : SecurityLevel) :
    List (String × String) → Except QueryError Unit
  | [] => .ok ()
  | p :: ps =>
    match validate_identifier p.1 lvl with
    | .error e => .error e
    | .ok _ =>
      if orderDirWhitelist.contains p.2 then validateOrderBy lvl ps
      else .error .invalidIdentifier

/-- Modelled from the spec: the structural validation of a SELECT call, in
order tables, columns, joins, conditions, group-by columns, having,
order-by items, numeric bounds, failing fast. -/
def selectCheck (lvl : SecurityLevel) (tables cols : List String)
    (joins : List Join) (conds : List Cond) (groupBy : List String)
    (having : Option HavingCond) (orderBy : List (String × String))
    (limit : Option Nat) : Except QueryError Unit :=
  match validateIdents lvl tables with
  | .error e => .error e
  | .ok _ =>
    match validateCols lvl cols with
    | .error e => .error e
    | .ok _ =>
      match validateJoins lvl joins with
      | .error e => .error e
      | .ok _ =>
        match validateConds lvl conds with
        | .error e => .error e
        | .ok _ =>
          match validateIdents lvl groupBy with
          | .error e => .error e
          | .ok _ =>
            match validateHaving lvl having with
            | .error e => .error e
            | .ok _ =>
              match validateOrderBy lvl orderBy with
              | .error e => .error e
              | .ok _ => validateLimit limit

/-- Fail-fast validation of the optional single-column PRIMARY KEY. -/
def validatePK (lvl : SecurityLevel) : Option String → Except QueryError Unit
  | none => .ok ()
  | some k =>
    match validate_identifier k lvl with
    | .error e => .error e
    | .ok _ => .ok ()

/-- Fail-fast validation of FOREIGN KEY clauses: all three identifiers must
be valid. -/
def validateFKs (lvl : SecurityLevel) :
    List ForeignKey → Except QueryError Unit
  | [] => .ok ()
  | f :: fs =>
    match validate_identifier f.column lvl with
    | .error e => .error e
    | .ok _ =>
      match validate_identifier f.refTable lvl with
      | .error e => .error e
      | .ok _ =>
        match validate_identifier f.refColumn lvl with
        | .error e => .error e
        | .ok _ => validateFKs lvl fs

/-- Modelled from the spec: the structural validation of a CREATE TABLE
call, in order the table identifier, the column-definition names, the
primary key and the foreign keys, failing fast. -/
def createCheck (lvl : SecurityLevel) (table : String)
    (cols : List ColumnDef) (pk : Option String) (fks : List ForeignKey) :
    Except QueryError Unit :=
  match validate_identifier table lvl with
  | .error e => .error e
  | .ok _ =>
    match validateIdents lvl (cols.map (·.name)) with
    | .error e => .error e
    | .ok _ =>
      match validatePK lvl pk with
      | .error e => .error e
      | .ok _ => validateFKs lvl fks

/-- Modelled from the spec: the structural validation of an INSERT call. -/
def insertCheck (lvl : SecurityLevel) (table : String)
    (cols returning : List String) : Except QueryError Unit :=
  match validate_identifier table lvl with
  | .error e => .error e
  | .ok _ =>
    match validateIdents lvl cols with
    | .error e => .error e
    | .ok _ => validateIdents lvl returning

/-- Modelled from the spec: the structural validation of an UPDATE call. -/
def updateCheck (lvl : SecurityLevel) (table : String) (setCols : List String)
    (conds : List Cond) : Except QueryError Unit :=
  match validate_identifier table lvl with
  | .error e => .error e
  | .ok _ =>
    match validateIdents lvl setCols with
    | .error e => .error e
    | .ok _ => validateConds lvl conds

/-- Modelled from the spec: the structural validation of a DELETE call. -/
def deleteCheck (lvl : SecurityLevel) (table : String) (conds : List Cond) :
    Except QueryError Unit :=
  match validate_identifier table lvl with
  | .error e => .error e
  | .ok _ => validateConds lvl conds

/-- The bound values of the optional HAVING condition, following the WHERE
values. -/
def havingParams : Option HavingCond → List String
  | none => []
  | some h => [h.value]

/-- The SELECT result assembled after validation and admission: statement
text plus the ordered condition values, WHERE values first, then the HAVING
value. -/
def buildSelect (d : DatabaseType) (tables cols : List String)
    (joins : List Join) (conds : List Cond) (groupBy : List String)
    (having : Option HavingCond) (orderBy : List (String × String))
    (limit : Option Nat) : GeneratedQuery :=
  ⟨⟨renderSelect d tables cols joins conds groupBy having orderBy limit⟩,
    conds.map (·.value) ++ havingParams having, d⟩

/-- The CREATE TABLE result: DDL text only, no placeholders and no bound
parameters. -/
def buildCreate (d : DatabaseType) (table : String) (cols : List ColumnDef)
    (pk : Option String) (fks : List ForeignKey) : GeneratedQuery :=
  ⟨⟨renderCreate table cols pk fks⟩, [], d⟩

/-- The INSERT result: each column is paired with its bound value, every
column consuming exactly one placeholder in declaration order. -/
def buildInsert (d : DatabaseType) (table : String)
    (cols : List (String × String)) (returning : List String) : GeneratedQuery :=
  ⟨⟨renderInsert d table (cols.map (·.1)) returning⟩, cols.map (·.2), d⟩

/-- The UPDATE result: SET values first, then WHERE values, matching the
left-to-right placeholder order. -/
def buildUpdate (d : DatabaseType) (table : String)
    (setCols : List (String × String)) (conds : List Cond) : GeneratedQuery :=
  ⟨⟨renderUpdate d table (setCols.map (·.1)) conds⟩,
    setCols.map (·.2) ++ conds.map (·.value), d⟩

/-- The DELETE result: the ordered condition values. -/
def buildDelete (d : DatabaseType) (table : String) (conds : List Cond) :
    GeneratedQuery :=
  ⟨⟨renderDelete d table conds⟩, conds.map (·.value), d⟩

/-- Modelled from the spec: after validation, the Rate Limiter is consulted
only when rate limiting is enabled and a caller identity was supplied; a
rejection is terminal and reported as a rate-limit security error. -/
def withRateLimit (cfg : GenConfig) (st : RateState) (now : Nat)
    (uid : Option String) (q : GeneratedQuery) :
    Except QueryError GeneratedQuery × RateState :=
  match cfg.enable_rate_limit, uid with
  | true, some u =>
    let r := admitRequest st u cfg.max_requests cfg.window_seconds now
    if r.1 then (.ok q, r.2) else (.error .rateLimitExceeded, r.2)
  | _, _ => (.ok q, st)

/-- Modelled from the spec: `generate_select_query` validates every
structural input (tables, columns, joins, conditions, group-by, having,
order-by, numeric bounds), consults the rate limiter when applicable, and
renders the dialect-specific text; any failure is terminal with no partial
statement. -/
def generate_select_query (cfg : GenConfig) (st : RateState) (now : Nat)
    (tables cols : List String) (joins : List Join) (conds : List Cond)
    (groupBy : List String) (having : Option HavingCond)
    (orderBy : List (String × String)) (limit : Option Nat)
    (user_id : Option String) : Except QueryError GeneratedQuery × RateState :=
  match selectCheck cfg.security_level tables cols joins conds groupBy
      having orderBy limit with
  | .error e => (.error e, st)
  | .ok _ =>
    withRateLimit cfg st now user_id
      (buildSelect cfg.dialect tables cols joins conds groupBy having
        orderBy limit)

/-- Modelled from the spec: `generate_create_table_query`, same linear
pipeline; the rendered DDL binds no parameters. -/
def generate_create_table_query (cfg : GenConfig) (st : RateState)
    (now : Nat) (table : String) (cols : List ColumnDef) (pk : Option String)
    (fks : List ForeignKey) (user_id : Option String) :
    Except QueryError GeneratedQuery × RateState :=
  match createCheck cfg.security_level table cols pk fks with
  | .error e => (.error e, st)
  | .ok _ =>
    withRateLimit cfg st now user_id (buildCreate cfg.dialect table cols pk fks)

/-- Modelled from the spec: `generate_insert_query`, same linear pipeline. -/
def generate_insert_query (cfg : GenConfig) (st : RateState) (now : Nat)
    (table : String) (cols : List (String × String)) (returning : List String)
    (user_id : Option String) : Except QueryError GeneratedQuery × RateState :=
  match insertCheck cfg.security_level table (cols.map (·.1)) returning with
  | .error e => (.error e, st)
  | .ok _ =>
    withRateLimit cfg st now user_id (buildInsert cfg.dialect table cols returning)

/-- Modelled from the spec: `generate_update_query`, same linear pipeline. -/
def generate_update_query (cfg : GenConfig) (st : RateState) (now : Nat)
    (table : String) (setCols : List (String × String)) (conds : List Cond)
    (user_id : Option String) : Except QueryError GeneratedQuery × RateState :=
  match updateCheck cfg.security_level table (setCols.map (·.1)) conds with
  | .error e => (.error e, st)
  | .ok _ =>
    withRateLimit cfg st now user_id (buildUpdate cfg.dialect table setCols conds)

/-- Modelled from the spec: `generate_delete_query`, same linear pipeline. -/
def generate_delete_query (cfg : GenConfig) (st : RateState) (now : Nat)
    (table : String) (conds : List Cond) (user_id : Option String) :
    Except QueryError GeneratedQuery × RateState :=
  match deleteCheck cfg.security_level table conds with
  | .error e => (.error e, st)
  | .ok _ =>
    withRateLimit cfg st now user_id (buildDelete cfg.dialect table conds)

/-! ## Static query analysis, modelled from the spec -/

/-- Modelled from the spec: the heuristic textual suggestions of
`optimize_query`, derived from structural pattern matches on the text. -/
def optimizeSuggestions (s : String) : List String :=
  let l := lowerList s.data
  (if containsSub ("select *".data) l then
    ["Avoid SELECT *; list only the needed columns"] else []) ++
  (if containsSub ("group by".data) l then
    ["Consider an index on the GROUP BY columns"] else []) ++
  (if containsSub (" join ".data) l then
    ["Ensure the JOIN columns are indexed"] else [])

/-- Modelled from the spec: `optimize_query` returns the input unchanged
alongside heuristic textual suggestions; it performs no cost-based
planning. -/
def optimize_query (s : String) : String × List String :=
  (s, optimizeSuggestions s)

/-! ## Spec-side identifier grammar

The claim states the accepted set as the regular expression
`^[A-Za-z_][A-Za-z0-9_]*$`; these definitions transcribe that expression by
explicit character ranges, to be compared with the validator's check. -/

/-- The head character class `[A-Za-z_]` of the claim's regular expression,
stated by explicit ranges. -/
def specHeadChar (c : Char) : Bool :=
  ('A' ≤ c && c ≤ 'Z') || ('a' ≤ c && c ≤ 'z') || c = '_'

/-- The tail character class `[A-Za-z0-9_]` of the claim's regular
expression, stated by explicit ranges. -/
def specTailChar (c : Char) : Bool :=
  ('A' ≤ c && c ≤ 'Z') || ('a' ≤ c && c ≤ 'z') || ('0' ≤ c && c ≤ '9')
    || c = '_'

/-- The claim's regular expression `^[A-Za-z_][A-Za-z0-9_]*$` on a whole
string. -/
def specIdentPattern (s : String) : Bool :=
  match s.data with
  | [] => false
  | c :: t => specHeadChar c && t.all specTailChar

/-! ## Placeholder-token extraction

A placeholder token starts at the dialect's marker character and extends over
the following letters and digits.  `extractPH` lists, left to right, every
placeholder token occurring in a character list; it is the observation
against which the round-trip invariant is stated. -/

/-- One-pass automaton extracting placeholder tokens: the accumulator holds
the token currently being read, in reverse. -/
def extractAuto (m : Char) : List Char → Option (List Char) → List (List Char)
  | [], none => []
  | [], some tok => [tok.reverse]
  | c :: t, none =>
    if c = m then extractAuto m t (some [c]) else extractAuto m t none
  | c :: t, some tok =>
    if isTokChar c then extractAuto m t (some (c :: tok))
    else tok.reverse :: extractAuto m t (if c = m then some [c] else none)

/-- The placeholder tokens of a character list, left to right. -/
def extractPH (m : Char) (l : List Char) : List (List Char) :=
  extractAuto m l none

example : extractPH '$' ("SELECT id FROM users WHERE a = $1 AND b = $2 LIMIT 7".data)
    = ["$1".data, "$2".data] := by decide

example : extractPH '@' ("INSERT INTO users (a, b) VALUES (@param1, @param2)".data)
    = ["@param1".data, "@param2".data] := by decide

example : extractPH '?' ("VALUES (?, ?, ?)".data)
    = ["?".data, "?".data, "?".data] := by decide

example : phChars .mssql 2 = "@param2".data := by decide

/-! ## Token-character lemmas -/

theorem digitChar_tok (n : Nat) (h : n < 10) : isTokChar (digitChar n) = true := by
  interval_cases n <;> decide

theorem natCharsAux_tok (f n : Nat) :
    ∀ c ∈ natCharsAux f n, isTokChar c = true := by
  induction f generalizing n with
  | zero => simp [natCharsAux]
  | succ f ih =>
    intro c hc
    rw [natCharsAux] at hc
    split at hc
    · simp only [List.mem_singleton] at hc
      subst hc
      exact digitChar_tok n (by assumption)
    · rcases List.mem_append.mp hc with h | h
      · exact ih _ c h
      · simp only [List.mem_singleton] at h
        subst h
        exact digitChar_tok _ (Nat.mod_lt _ (by norm_num))

theorem natChars_tok (n : Nat) : ∀ c ∈ natChars n, isTokChar c = true :=
  natCharsAux_tok (n + 1) n

theorem param_tok : ∀ c ∈ ("param".data), isTokChar c = true := by decide

theorem phTail_tok (d : DatabaseType) (n : Nat) :
    ∀ c ∈ phTail d n, isTokChar c = true := by
  cases d <;> intro c hc <;> simp only [phTail] at hc
  · exact natChars_tok n c hc
  · simp at hc
  · simp at hc
  · rcases List.mem_append.mp hc with h | h
    · exact param_tok c h
    · exact natChars_tok n c h
  · rcases List.mem_append.mp hc with h | h
    · exact param_tok c h
    · exact natChars_tok n c h

/-! ## Extraction lemmas -/

theorem extractAuto_cons_none_ne (m : Char) (c : Char) (t : List Char)
    (h : c ≠ m) : extractAuto m (c :: t) none = extractAuto m t none := by
  simp [extractAuto, h]

theorem extract_skip (m : Char) (a b : List Char) (h : mfree m a) :
    extractAuto m (a ++ b) none = extractAuto m b none := by
  induction a with
  | nil => rfl
  | cons c t ih =>
    rw [List.cons_append, extractAuto_cons_none_ne m c _ (h c (by simp))]
    exact ih (fun x hx => h x (by simp [hx]))

theorem extract_mfree (m : Char) (a : List Char) (h : mfree m a) :
    extractAuto m a none = [] := by
  have := extract_skip m a [] h
  simpa using this

theorem extract_go (m : Char) (tok : List Char) (rest : List Char)
    (acc : List Char) (htok : ∀ c ∈ tok, isTokChar c = true)
    (hb : boundary m rest) :
    extractAuto m (tok ++ rest) (some acc)
      = (acc.reverse ++ tok) :: extractAuto m rest none := by
  induction tok generalizing acc with
  | nil =>
    cases rest with
    | nil => simp [extractAuto]
    | cons c t =>
      obtain ⟨h1, h2⟩ := hb
      simp [extractAuto, h1, h2]
  | cons d ds ih =>
    rw [List.cons_append]
    have hd : isTokChar d = true := htok d (by simp)
    show extractAuto m (d :: (ds ++ rest)) (some acc) = _
    rw [extractAuto]
    simp only [hd, if_true]
    rw [ih (d :: acc) (fun c hc => htok c (List.mem_cons_of_mem d hc))]
    simp

theorem extract_token (d : DatabaseType) (n : Nat) (rest : List Char)
    (hb : boundary (markerChar d) rest) :
    extractAuto (markerChar d) (phChars d n ++ rest) none
      = phChars d n :: extractAuto (markerChar d) rest none := by
  show extractAuto _ ((markerChar d :: phTail d n) ++ rest) none = _
  rw [List.cons_append, extractAuto]
  simp only [if_pos rfl]
  rw [extract_go _ _ _ _ (phTail_tok d n) hb]
  simp [phChars]

/-! ## Marker-freeness lemmas -/

theorem mfree_append {m : Char} {a b : List Char} (ha : mfree m a)
    (hb : mfree m b) : mfree m (a ++ b) := by
  intro c hc
  rcases List.mem_append.mp hc with h | h
  · exact ha c h
  · exact hb c h

theorem identTailChar_ne_marker (d : DatabaseType) (c : Char)
    (h : identTailChar c = true) : c ≠ markerChar d := by
  intro he
  subst he
  cases d <;> exact absurd h (by decide)

theorem identHeadChar_tail (c : Char) (h : identHeadChar c = true) :
    identTailChar c = true := by
  rcases Bool.or_eq_true_iff.mp h with h1 | h1 <;>
    simp [identTailChar, h1]

theorem mfree_of_identOk (d : DatabaseType) (s : String)
    (h : identOk s = true) : mfree (markerChar d) s.data := by
  unfold identOk at h
  intro c hc
  cases hs : s.data with
  | nil => rw [hs] at hc; simp at hc
  | cons c0 t =>
    rw [hs] at h hc
    rcases Bool.and_eq_true_iff.mp h with ⟨h1, h2⟩
    rcases List.mem_cons.mp hc with h3 | h3
    · subst h3
      exact identTailChar_ne_marker d c (identHeadChar_tail c h1)
    · exact identTailChar_ne_marker d c (by
        have := List.all_eq_true.mp h2 c h3
        simpa using this)

theorem mfree_of_column (d : DatabaseType) (s : String)
    (h : identOk s = true ∨ s = "*") : mfree (markerChar d) s.data := by
  rcases h with h | h
  · exact mfree_of_identOk d s h
  · subst h
    cases d <;> decide

theorem identTailCharP_ne_marker (d : DatabaseType) (c : Char)
    (h : identTailCharP c = true) : c ≠ markerChar d := by
  rcases Bool.or_eq_true_iff.mp h with h1 | h1
  · exact identTailChar_ne_marker d c h1
  · have : c = '.' := by simpa using h1
    subst this
    cases d <;> decide

theorem mfree_of_identOkAt (d : DatabaseType) (lvl : SecurityLevel)
    (s : String) (h : identOkAt lvl s = true) :
    mfree (markerChar d) s.data := by
  cases lvl with
  | normal => exact mfree_of_identOk d s h
  | strict =>
    unfold identOkAt at h
    exact mfree_of_identOk d s (Bool.and_eq_true_iff.mp h).1
  | permissive =>
    unfold identOkAt at h
    cases hs : s.data with
    | nil =>
      intro c hc
      simp at hc
    | cons c0 t =>
      rw [hs] at h
      rcases Bool.and_eq_true_iff.mp h with ⟨h1, h2⟩
      intro c hc
      rcases List.mem_cons.mp hc with he | hm
      · subst he
        refine identTailCharP_ne_marker d c ?_
        unfold identTailCharP
        rw [identHeadChar_tail c h1]
        rfl
      · exact identTailCharP_ne_marker d c
          (by simpa using List.all_eq_true.mp h2 c hm)

theorem mfree_of_columnAt (d : DatabaseType) (lvl : SecurityLevel)
    (s : String) (h : identOkAt lvl s = true ∨ s = "*") :
    mfree (markerChar d) s.data := by
  rcases h with h | h
  · exact mfree_of_identOkAt d lvl s h
  · subst h
    cases d <;> decide

theorem mfree_of_op (d : DatabaseType) (s : String) (h : s ∈ opWhitelist) :
    mfree (markerChar d) s.data := by
  simp only [opWhitelist, List.mem_cons, List.not_mem_nil, or_false] at h
  rcases h with h | h | h | h | h | h | h | h <;> subst h <;>
    cases d <;> decide

theorem mfree_commaJoin (d : DatabaseType) (l : List String)
    (h : ∀ s ∈ l, mfree (markerChar d) s.data) :
    mfree (markerChar d) (commaJoin l) := by
  induction l with
  | nil => intro c hc; simp [commaJoin] at hc
  | cons s t ih =>
    cases t with
    | nil => simpa [commaJoin] using h s (by simp)
    | cons s2 t2 =>
      show mfree _ (s.data ++ (", ".data) ++ commaJoin (s2 :: t2))
      exact mfree_append
        (mfree_append (h s (by simp)) (by cases d <;> decide))
        (ih (fun x hx => h x (List.mem_cons_of_mem s hx)))

theorem mfree_natChars (d : DatabaseType) (n : Nat) :
    mfree (markerChar d) (natChars n) := by
  intro c hc he
  have ht := natChars_tok n c hc
  subst he
  cases d <;> exact absurd ht (by decide)

/-! ## Clause-level extraction lemmas -/

theorem boundary_comma (d : DatabaseType) (l : List Char) :
    boundary (markerChar d) ((", ".data) ++ l) := by
  refine ⟨by decide, ?_⟩
  cases d <;> decide

theorem boundary_space (d : DatabaseType) (l : List Char) :
    boundary (markerChar d) ([' '] ++ l) := by
  refine ⟨by decide, ?_⟩
  cases d <;> decide

theorem extract_setClause (d : DatabaseType) (cols : List String) (i : Nat)
    (rest : List Char) (hc : ∀ s ∈ cols, mfree (markerChar d) s.data)
    (hb : boundary (markerChar d) rest) :
    extractAuto (markerChar d) (setClause d i cols ++ rest) none
      = phSeq d i cols.length ++ extractAuto (markerChar d) rest none := by
  induction cols generalizing i with
  | nil => simp [setClause, phSeq]
  | cons c cs ih =>
    cases cs with
    | nil =>
      show extractAuto _ ((c.data ++ (" = ".data) ++ phChars d i) ++ rest) none = _
      rw [List.append_assoc, List.append_assoc]
      rw [extract_skip _ _ _ (hc c (by simp))]
      rw [extract_skip _ _ _ (by cases d <;> decide)]
      rw [extract_token d i rest hb]
      simp [phSeq]
    | cons c2 cs2 =>
      show extractAuto _
        ((c.data ++ (" = ".data) ++ phChars d i ++ (", ".data) ++
          setClause d (i + 1) (c2 :: cs2)) ++ rest) none = _
      simp only [List.append_assoc]
      rw [extract_skip _ _ _ (hc c (by simp))]
      rw [extract_skip _ _ _ (by cases d <;> decide)]
      rw [extract_token d i _ (by
        refine ⟨by decide, ?_⟩
        cases d <;> decide)]
      rw [extract_skip _ _ _ (by cases d <;> decide)]
      rw [ih (i + 1) (fun x hx => hc x (List.mem_cons_of_mem c hx))]
      simp [phSeq]

theorem extract_whereClause (d : DatabaseType) (conds : List Cond) (i : Nat)
    (rest : List Char)
    (hcol : ∀ c ∈ conds, mfree (markerChar d) c.col.data)
    (hop : ∀ c ∈ conds, mfree (markerChar d) c.op.data)
    (hb : boundary (markerChar d) rest) :
    extractAuto (markerChar d) (whereClause d i conds ++ rest) none
      = phSeq d i conds.length ++ extractAuto (markerChar d) rest none := by
  induction conds generalizing i with
  | nil => simp [whereClause, phSeq]
  | cons c cs ih =>
    cases cs with
    | nil =>
      show extractAuto _
        ((c.col.data ++ [' '] ++ c.op.data ++ [' '] ++ phChars d i) ++ rest) none = _
      simp only [List.append_assoc]
      rw [extract_skip _ _ _ (hcol c (by simp))]
      rw [extract_skip _ _ _ (by cases d <;> decide)]
      rw [extract_skip _ _ _ (hop c (by simp))]
      rw [extract_skip _ _ _ (by cases d <;> decide)]
      rw [extract_token d i rest hb]
      simp [phSeq]
    | cons c2 cs2 =>
      show extractAuto _
        ((c.col.data ++ [' '] ++ c.op.data ++ [' '] ++ phChars d i ++
          (" AND ".data) ++ whereClause d (i + 1) (c2 :: cs2)) ++ rest) none = _
      simp only [List.append_assoc]
      rw [extract_skip _ _ _ (hcol c (by simp))]
      rw [extract_skip _ _ _ (by cases d <;> decide)]
      rw [extract_skip _ _ _ (hop c (by simp))]
      rw [extract_skip _ _ _ (by cases d <;> decide)]
      rw [extract_token d i _ (by
        refine ⟨by decide, ?_⟩
        cases d <;> decide)]
      rw [extract_skip _ _ _ (by cases d <;> decide)]
      rw [ih (i + 1) (fun x hx => hcol x (List.mem_cons_of_mem c hx))
        (fun x hx => hop x (List.mem_cons_of_mem c hx))]
      simp [phSeq]

theorem extract_phJoin (d : DatabaseType) (n i : Nat) (rest : List Char)
    (hb : boundary (markerChar d) rest) :
    extractAuto (markerChar d) (phJoin d i n ++ rest) none
      = phSeq d i n ++ extractAuto (markerChar d) rest none := by
  induction n generalizing i with
  | zero => simp [phJoin, phSeq]
  | succ n ih =>
    cases n with
    | zero =>
      show extractAuto _ (phChars d i ++ rest) none = _
      rw [extract_token d i rest hb]
      simp [phSeq]
    | succ k =>
      show extractAuto _
        ((phChars d i ++ (", ".data) ++ phJoin d (i + 1) (k + 1)) ++ rest) none = _
      simp only [List.append_assoc]
      rw [extract_token d i _ (boundary_comma d _)]
      rw [extract_skip _ _ _ (by cases d <;> decide)]
      rw [ih (i + 1)]
      simp [phSeq]

theorem phSeq_append (d : DatabaseType) (a : Nat) :
    ∀ (i b : Nat), phSeq d i a ++ phSeq d (i + a) b = phSeq d i (a + b) := by
  induction a with
  | zero => intro i b; simp [phSeq]
  | succ a ih =>
    intro i b
    show phChars d i :: (phSeq d (i + 1) a ++ phSeq d (i + (a + 1)) b) = _
    have : i + (a + 1) = (i + 1) + a := by omega
    rw [this, ih (i + 1) b]
    show phChars d i :: phSeq d (i + 1) (a + b) = phSeq d i (a + 1 + b)
    have : a + 1 + b = (a + b) + 1 := by omega
    rw [this]
    rfl

/-! ## Render-level extraction lemmas -/

theorem ne_marker_of_tok (d : DatabaseType) (c : Char)
    (h : isTokChar c = true) : c ≠ markerChar d := by
  intro he
  subst he
  cases d <;> exact absurd h (by decide)

theorem extract_whereClause_nil (d : DatabaseType) (conds : List Cond)
    (i : Nat) (hcol : ∀ c ∈ conds, mfree (markerChar d) c.col.data)
    (hop : ∀ c ∈ conds, mfree (markerChar d) c.op.data) :
    extractAuto (markerChar d) (whereClause d i conds) none
      = phSeq d i conds.length := by
  have h := extract_whereClause d conds i [] hcol hop trivial
  simpa [extractAuto] using h

theorem extract_whereTail (d : DatabaseType) (conds : List Cond) (i : Nat)
    (hcol : ∀ c ∈ conds, mfree (markerChar d) c.col.data)
    (hop : ∀ c ∈ conds, mfree (markerChar d) c.op.data) :
    extractAuto (markerChar d) (whereTail d i conds) none
      = phSeq d i conds.length := by
  cases conds with
  | nil => rfl
  | cons c cs =>
    show extractAuto _ ((" WHERE ".data) ++ whereClause d i (c :: cs)) none = _
    rw [extract_skip _ _ _ (by cases d <;> decide)]
    exact extract_whereClause_nil d (c :: cs) i hcol hop

theorem boundary_whereTail (d : DatabaseType) (i : Nat) (conds : List Cond) :
    boundary (markerChar d) (whereTail d i conds) := by
  cases conds with
  | nil => trivial
  | cons c cs => exact ⟨by decide, by cases d <;> decide⟩

theorem extract_renderUpdate (d : DatabaseType) (table : String)
    (setCols : List String) (conds : List Cond)
    (ht : mfree (markerChar d) table.data)
    (hs : ∀ s ∈ setCols, mfree (markerChar d) s.data)
    (hcol : ∀ c ∈ conds, mfree (markerChar d) c.col.data)
    (hop : ∀ c ∈ conds, mfree (markerChar d) c.op.data) :
    extractPH (markerChar d) (renderUpdate d table setCols conds)
      = phSeq d 1 (setCols.length + conds.length) := by
  unfold extractPH renderUpdate
  simp only [List.append_assoc]
  rw [extract_skip _ _ _ (by cases d <;> decide)]
  rw [extract_skip _ _ _ ht]
  rw [extract_skip _ _ _ (by cases d <;> decide)]
  rw [extract_setClause d setCols 1 (whereTail d (setCols.length + 1) conds)
    hs (boundary_whereTail d _ conds)]
  rw [extract_whereTail d conds (setCols.length + 1) hcol hop]
  have h := phSeq_append d setCols.length 1 conds.length
  rw [Nat.add_comm 1 setCols.length] at h
  exact h

theorem mfree_retClause (d : DatabaseType) (returning : List String)
    (hret : ∀ s ∈ returning, mfree (markerChar d) s.data) :
    mfree (markerChar d) (retClause d returning) := by
  unfold retClause
  split
  · exact mfree_append (by cases d <;> decide)
      (mfree_commaJoin d returning hret)
  · intro c hc; simp at hc

theorem extract_renderInsert (d : DatabaseType) (table : String)
    (cols : List String) (returning : List String)
    (ht : mfree (markerChar d) table.data)
    (hs : ∀ s ∈ cols, mfree (markerChar d) s.data)
    (hret : ∀ s ∈ returning, mfree (markerChar d) s.data) :
    extractPH (markerChar d) (renderInsert d table cols returning)
      = phSeq d 1 cols.length := by
  unfold extractPH renderInsert
  simp only [List.append_assoc]
  rw [extract_skip _ _ _ (by cases d <;> decide)]
  rw [extract_skip _ _ _ ht]
  rw [extract_skip _ _ _ (by cases d <;> decide)]
  rw [extract_skip _ _ _ (mfree_commaJoin d cols hs)]
  rw [extract_skip _ _ _ (by cases d <;> decide)]
  rw [extract_phJoin d cols.length 1 ([')'] ++ retClause d returning)
    ⟨by decide, by cases d <;> decide⟩]
  rw [extract_mfree _ _ (mfree_append (by cases d <;> decide)
    (mfree_retClause d returning hret))]
  exact List.append_nil _

theorem extract_renderDelete (d : DatabaseType) (table : String)
    (conds : List Cond)
    (ht : mfree (markerChar d) table.data)
    (hcol : ∀ c ∈ conds, mfree (markerChar d) c.col.data)
    (hop : ∀ c ∈ conds, mfree (markerChar d) c.op.data) :
    extractPH (markerChar d) (renderDelete d table conds)
      = phSeq d 1 conds.length := by
  unfold extractPH renderDelete
  simp only [List.append_assoc]
  rw [extract_skip _ _ _ (by cases d <;> decide)]
  rw [extract_skip _ _ _ ht]
  exact extract_whereTail d conds 1 hcol hop

theorem mfree_topClause (d : DatabaseType) (limit : Option Nat) :
    mfree (markerChar d) (topClause d limit) := by
  cases d <;> cases limit <;> intro c hc <;> simp only [topClause] at hc
  case mssql.some n =>
    rcases List.mem_append.mp hc with h | h
    · rcases List.mem_append.mp h with h2 | h2
      · intro he; subst he; revert h2; decide
      · exact ne_marker_of_tok _ c (natChars_tok n c h2)
    · intro he; subst he; revert h; decide
  all_goals simp at hc

theorem mfree_limitClause (d : DatabaseType) (limit : Option Nat) :
    mfree (markerChar d) (limitClause d limit) := by
  cases d <;> cases limit <;> intro c hc <;> simp only [limitClause] at hc
  case mssql.none => simp at hc
  case mssql.some n => simp at hc
  case postgresql.none => simp at hc
  case mysql.none => simp at hc
  case sqlite.none => simp at hc
  case oracle.none => simp at hc
  all_goals
    rcases List.mem_append.mp hc with h | h
  all_goals
    first
      | (intro he; subst he; revert h; decide)
      | exact ne_marker_of_tok _ c (natChars_tok _ c h)

theorem boundary_limitClause (d : DatabaseType) (limit : Option Nat) :
    boundary (markerChar d) (limitClause d limit) := by
  cases d <;> cases limit <;> trivial

theorem mfree_of_joinType (d : DatabaseType) (s : String)
    (h : s ∈ joinTypeWhitelist) : mfree (markerChar d) s.data := by
  simp only [joinTypeWhitelist, List.mem_cons, List.not_mem_nil,
    or_false] at h
  rcases h with h | h | h | h <;> subst h <;> cases d <;> decide

theorem mfree_of_agg (d : DatabaseType) (s : String)
    (h : s ∈ aggWhitelist) : mfree (markerChar d) s.data := by
  simp only [aggWhitelist, List.mem_cons, List.not_mem_nil, or_false] at h
  rcases h with h | h | h | h | h <;> subst h <;> cases d <;> decide

theorem mfree_of_orderDir (d : DatabaseType) (s : String)
    (h : s ∈ orderDirWhitelist) : mfree (markerChar d) s.data := by
  simp only [orderDirWhitelist, List.mem_cons, List.not_mem_nil,
    or_false] at h
  rcases h with h | h <;> subst h <;> cases d <;> decide

theorem mfree_joinsChunk (d : DatabaseType) (joins : List Join)
    (h : ∀ j ∈ joins, j.jtype ∈ joinTypeWhitelist
      ∧ mfree (markerChar d) j.jtable.data
      ∧ mfree (markerChar d) j.onLeft.data
      ∧ mfree (markerChar d) j.onRight.data) :
    mfree (markerChar d) (joinsChunk joins) := by
  induction joins with
  | nil => intro c hc; simp [joinsChunk] at hc
  | cons j js ih =>
    obtain ⟨h1, h2, h3, h4⟩ := h j (List.mem_cons_self j js)
    have hrest := ih (fun x hx => h x (List.mem_cons_of_mem j hx))
    show mfree _ ([' '] ++ j.jtype.data ++ (" JOIN ".data) ++ j.jtable.data
      ++ (" ON ".data) ++ j.onLeft.data ++ (" = ".data) ++ j.onRight.data
      ++ joinsChunk js)
    refine mfree_append (mfree_append (mfree_append (mfree_append
      (mfree_append (mfree_append (mfree_append (mfree_append
        (by cases d <;> decide) (mfree_of_joinType d _ h1))
        (by cases d <;> decide)) h2)
        (by cases d <;> decide)) h3)
        (by cases d <;> decide)) h4) hrest

theorem mfree_groupByTail (d : DatabaseType) (g : List String)
    (h : ∀ s ∈ g, mfree (markerChar d) s.data) :
    mfree (markerChar d) (groupByTail g) := by
  cases g with
  | nil => intro c hc; simp [groupByTail] at hc
  | cons x xs =>
    exact mfree_append (by cases d <;> decide)
      (mfree_commaJoin d (x :: xs) h)

theorem mfree_orderJoin (d : DatabaseType) (l : List (String × String))
    (h : ∀ p ∈ l, mfree (markerChar d) p.1.data
      ∧ mfree (markerChar d) p.2.data) :
    mfree (markerChar d) (orderJoin l) := by
  induction l with
  | nil => intro c hc; simp [orderJoin] at hc
  | cons p ps ih =>
    obtain ⟨h1, h2⟩ := h p (List.mem_cons_self p ps)
    have hitem : mfree (markerChar d) (orderItem p) :=
      mfree_append (mfree_append h1 (by cases d <;> decide)) h2
    cases ps with
    | nil => exact hitem
    | cons p2 ps2 =>
      show mfree _ (orderItem p ++ (", ".data) ++ orderJoin (p2 :: ps2))
      exact mfree_append (mfree_append hitem (by cases d <;> decide))
        (ih (fun x hx => h x (List.mem_cons_of_mem p hx)))

theorem mfree_orderByTail (d : DatabaseType) (l : List (String × String))
    (h : ∀ p ∈ l, mfree (markerChar d) p.1.data
      ∧ mfree (markerChar d) p.2.data) :
    mfree (markerChar d) (orderByTail l) := by
  cases l with
  | nil => intro c hc; simp [orderByTail] at hc
  | cons p ps =>
    exact mfree_append (by cases d <;> decide) (mfree_orderJoin d (p :: ps) h)

theorem extract_whereTail_rest (d : DatabaseType) (conds : List Cond)
    (i : Nat) (rest : List Char)
    (hcol : ∀ c ∈ conds, mfree (markerChar d) c.col.data)
    (hop : ∀ c ∈ conds, mfree (markerChar d) c.op.data)
    (hb : boundary (markerChar d) rest) :
    extractAuto (markerChar d) (whereTail d i conds ++ rest) none
      = phSeq d i conds.length ++ extractAuto (markerChar d) rest none := by
  cases conds with
  | nil =>
    show extractAuto _ ([] ++ rest) none = _
    rw [List.nil_append]
    simp [phSeq]
  | cons c cs =>
    show extractAuto _
      (((" WHERE ".data) ++ whereClause d i (c :: cs)) ++ rest) none = _
    rw [List.append_assoc]
    rw [extract_skip _ _ _ (by cases d <;> decide)]
    exact extract_whereClause d (c :: cs) i rest hcol hop hb

theorem boundary_orderLimit (d : DatabaseType)
    (orderBy : List (String × String)) (limit : Option Nat) :
    boundary (markerChar d) (orderByTail orderBy ++ limitClause d limit) := by
  cases orderBy with
  | cons p ps => exact ⟨by decide, by cases d <;> decide⟩
  | nil =>
    show boundary _ ([] ++ limitClause d limit)
    rw [List.nil_append]
    exact boundary_limitClause d limit

theorem boundary_afterWhere (d : DatabaseType) (i : Nat)
    (groupBy : List String) (having : Option HavingCond)
    (orderBy : List (String × String)) (limit : Option Nat) :
    boundary (markerChar d) (groupByTail groupBy ++ (havingTail d i having
      ++ (orderByTail orderBy ++ limitClause d limit))) := by
  cases groupBy with
  | cons g gs => exact ⟨by decide, by cases d <;> decide⟩
  | nil =>
    show boundary _ ([] ++ (havingTail d i having
      ++ (orderByTail orderBy ++ limitClause d limit)))
    rw [List.nil_append]
    cases having with
    | some h => exact ⟨by decide, by cases d <;> decide⟩
    | none =>
      show boundary _ ([] ++ (orderByTail orderBy ++ limitClause d limit))
      rw [List.nil_append]
      exact boundary_orderLimit d orderBy limit

theorem extract_afterWhere (d : DatabaseType) (i : Nat)
    (groupBy : List String) (having : Option HavingCond)
    (orderBy : List (String × String)) (limit : Option Nat)
    (hg : mfree (markerChar d) (groupByTail groupBy))
    (hh : ∀ h : HavingCond, having = some h →
      mfree (markerChar d) h.fn.data ∧ mfree (markerChar d) h.arg.data
        ∧ mfree (markerChar d) h.op.data)
    (ho : mfree (markerChar d) (orderByTail orderBy)) :
    extractAuto (markerChar d) (groupByTail groupBy ++ (havingTail d i having
      ++ (orderByTail orderBy ++ limitClause d limit))) none
      = phSeq d i (havingParams having).length := by
  rw [extract_skip _ _ _ hg]
  cases having with
  | none =>
    show extractAuto _ ([] ++ (orderByTail orderBy ++ limitClause d limit))
      none = _
    rw [List.nil_append]
    rw [extract_mfree _ _ (mfree_append ho (mfree_limitClause d limit))]
    rfl
  | some h =>
    obtain ⟨hf, ha, hopm⟩ := hh h rfl
    show extractAuto _
      (((" HAVING ".data) ++ h.fn.data ++ ['('] ++ h.arg.data
        ++ ((") ".data)) ++ h.op.data ++ [' '] ++ phChars d i)
        ++ (orderByTail orderBy ++ limitClause d limit)) none = _
    simp only [List.append_assoc]
    rw [extract_skip _ _ _ (by cases d <;> decide)]
    rw [extract_skip _ _ _ hf]
    rw [extract_skip _ _ _ (by cases d <;> decide)]
    rw [extract_skip _ _ _ ha]
    rw [extract_skip _ _ _ (by cases d <;> decide)]
    rw [extract_skip _ _ _ hopm]
    rw [extract_skip _ _ _ (by cases d <;> decide)]
    rw [extract_token d i _ (boundary_orderLimit d orderBy limit)]
    rw [extract_mfree _ _ (mfree_append ho (mfree_limitClause d limit))]
    rfl

theorem extract_renderSelect (d : DatabaseType) (tables cols : List String)
    (joins : List Join) (conds : List Cond) (groupBy : List String)
    (having : Option HavingCond) (orderBy : List (String × String))
    (limit : Option Nat)
    (htables : ∀ s ∈ tables, mfree (markerChar d) s.data)
    (hcols : ∀ s ∈ cols, mfree (markerChar d) s.data)
    (hjoins : mfree (markerChar d) (joinsChunk joins))
    (hcol : ∀ c ∈ conds, mfree (markerChar d) c.col.data)
    (hop : ∀ c ∈ conds, mfree (markerChar d) c.op.data)
    (hg : mfree (markerChar d) (groupByTail groupBy))
    (hh : ∀ h : HavingCond, having = some h →
      mfree (markerChar d) h.fn.data ∧ mfree (markerChar d) h.arg.data
        ∧ mfree (markerChar d) h.op.data)
    (ho : mfree (markerChar d) (orderByTail orderBy)) :
    extractPH (markerChar d)
      (renderSelect d tables cols joins conds groupBy having orderBy limit)
      = phSeq d 1 (conds.length + (havingParams having).length) := by
  unfold extractPH renderSelect
  simp only [List.append_assoc]
  rw [extract_skip _ _ _ (by cases d <;> decide)]
  rw [extract_skip _ _ _ (mfree_topClause d limit)]
  rw [extract_skip _ _ _ (mfree_commaJoin d cols hcols)]
  rw [extract_skip _ _ _ (by cases d <;> decide)]
  rw [extract_skip _ _ _ (mfree_commaJoin d tables htables)]
  rw [extract_skip _ _ _ hjoins]
  rw [extract_whereTail_rest d conds 1 _ hcol hop
    (boundary_afterWhere d (conds.length + 1) groupBy having orderBy limit)]
  rw [extract_afterWhere d (conds.length + 1) groupBy having orderBy limit
    hg hh ho]
  have h := phSeq_append d conds.length 1 (havingParams having).length
  rw [Nat.add_comm 1 conds.length] at h
  exact h

theorem mfree_colDefsJoin (d : DatabaseType) (cols : List ColumnDef)
    (h : ∀ c ∈ cols, mfree (markerChar d) c.name.data
      ∧ mfree (markerChar d) c.ctype.data
      ∧ (∀ x, c.dflt = some x → mfree (markerChar d) x.data)) :
    mfree (markerChar d) (colDefsJoin cols) := by
  induction cols with
  | nil => intro c hc; simp [colDefsJoin] at hc
  | cons c cs ih =>
    obtain ⟨h1, h2, h3⟩ := h c (List.mem_cons_self c cs)
    have hchunk : mfree (markerChar d) (colDefChunk c) := by
      unfold colDefChunk
      refine mfree_append (mfree_append (mfree_append (mfree_append h1
        (by cases d <;> decide)) h2) ?_) ?_
      · cases c.notNull
        · intro x hx; simp at hx
        · cases d <;> decide
      · cases hd : c.dflt with
        | none => intro x hx; simp at hx
        | some x =>
          exact mfree_append (by cases d <;> decide) (h3 x hd)
    cases cs with
    | nil => exact hchunk
    | cons c2 cs2 =>
      show mfree _ (colDefChunk c ++ (", ".data) ++ colDefsJoin (c2 :: cs2))
      exact mfree_append (mfree_append hchunk (by cases d <;> decide))
        (ih (fun x hx => h x (List.mem_cons_of_mem c hx)))

theorem mfree_pkChunk (d : DatabaseType) (pk : Option String)
    (h : ∀ k, pk = some k → mfree (markerChar d) k.data) :
    mfree (markerChar d) (pkChunk pk) := by
  cases pk with
  | none => intro c hc; simp [pkChunk] at hc
  | some k =>
    exact mfree_append (mfree_append (by cases d <;> decide) (h k rfl))
      (by cases d <;> decide)

theorem mfree_fksChunk (d : DatabaseType) (fks : List ForeignKey)
    (h : ∀ f ∈ fks, mfree (markerChar d) f.column.data
      ∧ mfree (markerChar d) f.refTable.data
      ∧ mfree (markerChar d) f.refColumn.data) :
    mfree (markerChar d) (fksChunk fks) := by
  induction fks with
  | nil => intro c hc; simp [fksChunk] at hc
  | cons f fs ih =>
    obtain ⟨h1, h2, h3⟩ := h f (List.mem_cons_self f fs)
    show mfree _ (fkChunk f ++ fksChunk fs)
    refine mfree_append ?_ (ih (fun x hx => h x (List.mem_cons_of_mem f hx)))
    unfold fkChunk
    exact mfree_append (mfree_append (mfree_append (mfree_append
      (mfree_append (mfree_append (by cases d <;> decide) h1)
        (by cases d <;> decide)) h2)
        (by cases d <;> decide)) h3) (by cases d <;> decide)

theorem extract_renderCreate (d : DatabaseType) (table : String)
    (cols : List ColumnDef) (pk : Option String) (fks : List ForeignKey)
    (ht : mfree (markerChar d) table.data)
    (hcols : mfree (markerChar d) (colDefsJoin cols))
    (hpk : mfree (markerChar d) (pkChunk pk))
    (hfks : mfree (markerChar d) (fksChunk fks)) :
    extractPH (markerChar d) (renderCreate table cols pk fks) = [] := by
  unfold extractPH renderCreate
  exact extract_mfree _ _ (mfree_append (mfree_append (mfree_append
    (mfree_append (mfree_append (mfree_append (by cases d <;> decide) ht)
      (by cases d <;> decide)) hcols) hpk) hfks) (by cases d <;> decide))

/-! ## Structure-only dependence of the rendered text -/

theorem whereClause_congr (d : DatabaseType) (a : List Cond) :
    ∀ (i : Nat) (b : List Cond),
    a.map (fun c => (c.col, c.op)) = b.map (fun c => (c.col, c.op)) →
    whereClause d i a = whereClause d i b := by
  induction a with
  | nil =>
    intro i b h
    cases b with
    | nil => rfl
    | cons c2 cs2 => simp at h
  | cons c cs ih =>
    intro i b h
    cases b with
    | nil => simp at h
    | cons c2 cs2 =>
      simp only [List.map_cons, List.cons.injEq] at h
      obtain ⟨h1, h2⟩ := h
      have hcol : c.col = c2.col := congrArg Prod.fst h1
      have hop : c.op = c2.op := congrArg Prod.snd h1
      cases cs with
      | nil =>
        cases cs2 with
        | nil => simp [whereClause, hcol, hop]
        | cons c3 cs3 => simp at h2
      | cons c3 cs3 =>
        cases cs2 with
        | nil => simp at h2
        | cons c4 cs4 =>
          show c.col.data ++ [' '] ++ c.op.data ++ [' '] ++ phChars d i ++
              (" AND ".data) ++ whereClause d (i + 1) (c3 :: cs3) = _
          rw [hcol, hop, ih (i + 1) (c4 :: cs4) h2]
          rfl

theorem whereTail_congr (d : DatabaseType) (i : Nat) (a b : List Cond)
    (h : a.map (fun c => (c.col, c.op)) = b.map (fun c => (c.col, c.op))) :
    whereTail d i a = whereTail d i b := by
  cases a with
  | nil =>
    cases b with
    | nil => rfl
    | cons c2 cs2 => simp at h
  | cons c cs =>
    cases b with
    | nil => simp at h
    | cons c2 cs2 =>
      show (" WHERE ".data) ++ whereClause d i (c :: cs) = _
      rw [whereClause_congr d (c :: cs) i (c2 :: cs2) h]
      rfl

theorem havingTail_congr (d : DatabaseType) (i : Nat)
    (a b : Option HavingCond)
    (h : a.map (fun x => (x.fn, x.arg, x.op))
      = b.map (fun x => (x.fn, x.arg, x.op))) :
    havingTail d i a = havingTail d i b := by
  cases a with
  | none =>
    cases b with
    | none => rfl
    | some y => simp at h
  | some x =>
    cases b with
    | none => simp at h
    | some y =>
      simp only [Option.map_some', Option.some.injEq, Prod.mk.injEq] at h
      obtain ⟨h1, h2, h3⟩ := h
      show (" HAVING ".data) ++ x.fn.data ++ ['('] ++ x.arg.data
          ++ (") ".data) ++ x.op.data ++ [' '] ++ phChars d i
        = (" HAVING ".data) ++ y.fn.data ++ ['('] ++ y.arg.data
          ++ (") ".data) ++ y.op.data ++ [' '] ++ phChars d i
      rw [h1, h2, h3]

/-! ## Rate-limiter case analysis -/

theorem admitRequest_eq (st : RateState) (id : String) (a w now : Nat) :
    admitRequest st id a w now
      = if (purge now w (lookupW st id)).length < a
        then (true, setW st id (purge now w (lookupW st id) ++ [now]))
        else (false, st) := rfl

theorem admitRequest_cases (st : RateState) (id : String) (a w now : Nat) :
    ((purge now w (lookupW st id)).length < a ∧
      admitRequest st id a w now
        = (true, setW st id (purge now w (lookupW st id) ++ [now])))
    ∨ (a ≤ (purge now w (lookupW st id)).length ∧
      admitRequest st id a w now = (false, st)) := by
  rw [admitRequest_eq]
  split
  · exact Or.inl ⟨by assumption, rfl⟩
  · exact Or.inr ⟨by omega, rfl⟩

theorem mem_purge (now w : Nat) (l : List Nat) (t : Nat) :
    t ∈ purge now w l ↔ t ∈ l ∧ now ≤ t + w := by
  unfold purge
  simp [List.mem_filter]

theorem lookupW_setW (st : RateState) (id : String) (v : List Nat) :
    lookupW (setW st id v) id = v := by
  induction st with
  | nil => simp [setW, lookupW]
  | cons p t ih =>
    unfold setW
    split
    · simp [lookupW]
    · unfold lookupW
      rw [if_neg (by assumption)]
      exact ih

theorem lookupW_setW_ne (st : RateState) (id id2 : String) (v : List Nat)
    (h : id ≠ id2) : lookupW (setW st id v) id2 = lookupW st id2 := by
  induction st with
  | nil => simp [setW, lookupW, h]
  | cons p t ih =>
    unfold setW
    split
    next heq =>
      unfold lookupW
      rw [if_neg h, if_neg (fun hc => h (heq.symm.trans hc))]
    next hne =>
      unfold lookupW
      split
      · rfl
      · exact ih

/-! ## Rate-limit wrapping of the generators -/

theorem wrl_disabled (cfg : GenConfig) (st : RateState) (now : Nat)
    (uid : Option String) (q : GeneratedQuery)
    (h : cfg.enable_rate_limit = false) :
    withRateLimit cfg st now uid q = (.ok q, st) := by
  unfold withRateLimit
  rw [h]

theorem wrl_none (cfg : GenConfig) (st : RateState) (now : Nat)
    (q : GeneratedQuery) : withRateLimit cfg st now none q = (.ok q, st) := by
  unfold withRateLimit
  cases cfg.enable_rate_limit <;> rfl

theorem wrl_admitted (cfg : GenConfig) (st : RateState) (now : Nat)
    (u : String) (q : GeneratedQuery)
    (he : cfg.enable_rate_limit = true)
    (hr : (admitRequest st u cfg.max_requests cfg.window_seconds now).1 = true) :
    withRateLimit cfg st now (some u) q
      = (.ok q, (admitRequest st u cfg.max_requests cfg.window_seconds now).2) := by
  unfold withRateLimit
  rw [he]
  simp only [hr, if_true]

theorem wrl_rejected (cfg : GenConfig) (st : RateState) (now : Nat)
    (u : String) (q : GeneratedQuery)
    (he : cfg.enable_rate_limit = true)
    (hr : (admitRequest st u cfg.max_requests cfg.window_seconds now).1 = false) :
    withRateLimit cfg st now (some u) q = (.error .rateLimitExceeded, st) := by
  have hsnd : (admitRequest st u cfg.max_requests cfg.window_seconds now).2 = st := by
    rcases admitRequest_cases st u cfg.max_requests cfg.window_seconds now with
      ⟨_, h⟩ | ⟨_, h⟩
    · rw [h] at hr; simp at hr
    · rw [h]
  unfold withRateLimit
  rw [he]
  simp only [hr, if_false, Bool.false_eq_true, hsnd]

theorem withRateLimit_ok (cfg : GenConfig) (st : RateState) (now : Nat)
    (uid : Option String) (q r : GeneratedQuery) (st2 : RateState)
    (h : withRateLimit cfg st now uid q = (.ok r, st2)) : r = q := by
  cases uid with
  | none =>
    rw [wrl_none] at h
    have := congrArg Prod.fst h
    simpa using this.symm
  | some u =>
    cases he : cfg.enable_rate_limit with
    | false =>
      rw [wrl_disabled cfg st now _ q he] at h
      have := congrArg Prod.fst h
      simpa using this.symm
    | true =>
      cases hr : (admitRequest st u cfg.max_requests cfg.window_seconds now).1 with
      | true =>
        rw [wrl_admitted cfg st now u q he hr] at h
        have := congrArg Prod.fst h
        simpa using this.symm
      | false =>
        rw [wrl_rejected cfg st now u q he hr] at h
        have := congrArg Prod.fst h
        simp at this

/-! ## Generator inversion helpers -/

theorem generate_select_err (cfg : GenConfig) (st : RateState) (now : Nat)
    (tables cols : List String) (joins : List Join) (conds : List Cond)
    (groupBy : List String) (having : Option HavingCond)
    (orderBy : List (String × String)) (limit : Option Nat)
    (uid : Option String) (e : QueryError)
    (h : selectCheck cfg.security_level tables cols joins conds groupBy
      having orderBy limit = .error e) :
    generate_select_query cfg st now tables cols joins conds groupBy having
      orderBy limit uid = (.error e, st) := by
  unfold generate_select_query
  rw [h]

theorem generate_select_ok_path (cfg : GenConfig) (st : RateState) (now : Nat)
    (tables cols : List String) (joins : List Join) (conds : List Cond)
    (groupBy : List String) (having : Option HavingCond)
    (orderBy : List (String × String)) (limit : Option Nat)
    (uid : Option String)
    (h : selectCheck cfg.security_level tables cols joins conds groupBy
      having orderBy limit = .ok ()) :
    generate_select_query cfg st now tables cols joins conds groupBy having
      orderBy limit uid
      = withRateLimit cfg st now uid
          (buildSelect cfg.dialect tables cols joins conds groupBy having
            orderBy limit) := by
  unfold generate_select_query
  rw [h]

theorem generate_create_err (cfg : GenConfig) (st : RateState) (now : Nat)
    (table : String) (cols : List ColumnDef) (pk : Option String)
    (fks : List ForeignKey) (uid : Option String) (e : QueryError)
    (h : createCheck cfg.security_level table cols pk fks = .error e) :
    generate_create_table_query cfg st now table cols pk fks uid
      = (.error e, st) := by
  unfold generate_create_table_query
  rw [h]

theorem generate_create_ok_path (cfg : GenConfig) (st : RateState)
    (now : Nat) (table : String) (cols : List ColumnDef) (pk : Option String)
    (fks : List ForeignKey) (uid : Option String)
    (h : createCheck cfg.security_level table cols pk fks = .ok ()) :
    generate_create_table_query cfg st now table cols pk fks uid
      = withRateLimit cfg st now uid
          (buildCreate cfg.dialect table cols pk fks) := by
  unfold generate_create_table_query
  rw [h]

theorem generate_insert_err (cfg : GenConfig) (st : RateState) (now : Nat)
    (table : String) (cols : List (String × String)) (returning : List String)
    (uid : Option String) (e : QueryError)
    (h : insertCheck cfg.security_level table (cols.map (·.1)) returning
      = .error e) :
    generate_insert_query cfg st now table cols returning uid
      = (.error e, st) := by
  unfold generate_insert_query
  rw [h]

theorem generate_insert_ok_path (cfg : GenConfig) (st : RateState) (now : Nat)
    (table : String) (cols : List (String × String)) (returning : List String)
    (uid : Option String)
    (h : insertCheck cfg.security_level table (cols.map (·.1)) returning
      = .ok ()) :
    generate_insert_query cfg st now table cols returning uid
      = withRateLimit cfg st now uid
          (buildInsert cfg.dialect table cols returning) := by
  unfold generate_insert_query
  rw [h]

theorem generate_update_err (cfg : GenConfig) (st : RateState) (now : Nat)
    (table : String) (setCols : List (String × String)) (conds : List Cond)
    (uid : Option String) (e : QueryError)
    (h : updateCheck cfg.security_level table (setCols.map (·.1)) conds
      = .error e) :
    generate_update_query cfg st now table setCols conds uid
      = (.error e, st) := by
  unfold generate_update_query
  rw [h]

theorem generate_update_ok_path (cfg : GenConfig) (st : RateState) (now : Nat)
    (table : String) (setCols : List (String × String)) (conds : List Cond)
    (uid : Option String)
    (h : updateCheck cfg.security_level table (setCols.map (·.1)) conds
      = .ok ()) :
    generate_update_query cfg st now table setCols conds uid
      = withRateLimit cfg st now uid
          (buildUpdate cfg.dialect table setCols conds) := by
  unfold generate_update_query
  rw [h]

theorem generate_delete_err (cfg : GenConfig) (st : RateState) (now : Nat)
    (table : String) (conds : List Cond) (uid : Option String) (e : QueryError)
    (h : deleteCheck cfg.security_level table conds = .error e) :
    generate_delete_query cfg st now table conds uid = (.error e, st) := by
  unfold generate_delete_query
  rw [h]

theorem generate_delete_ok_path (cfg : GenConfig) (st : RateState) (now : Nat)
    (table : String) (conds : List Cond) (uid : Option String)
    (h : deleteCheck cfg.security_level table conds = .ok ()) :
    generate_delete_query cfg st now table conds uid
      = withRateLimit cfg st now uid (buildDelete cfg.dialect table conds) := by
  unfold generate_delete_query
  rw [h]

theorem generate_select_ok (cfg : GenConfig) (st : RateState) (now : Nat)
    (tables cols : List String) (joins : List Join) (conds : List Cond)
    (groupBy : List String) (having : Option HavingCond)
    (orderBy : List (String × String)) (limit : Option Nat)
    (uid : Option String) (q : GeneratedQuery) (st2 : RateState)
    (h : generate_select_query cfg st now tables cols joins conds groupBy
      having orderBy limit uid = (.ok q, st2)) :
    q = buildSelect cfg.dialect tables cols joins conds groupBy having
      orderBy limit := by
  cases hch : selectCheck cfg.security_level tables cols joins conds groupBy
      having orderBy limit with
  | error e =>
    rw [generate_select_err cfg st now tables cols joins conds groupBy
      having orderBy limit uid e hch] at h
    have := congrArg Prod.fst h
    simp at this
  | ok u =>
    cases u
    rw [generate_select_ok_path cfg st now tables cols joins conds groupBy
      having orderBy limit uid hch] at h
    exact withRateLimit_ok _ _ _ _ _ _ _ h

theorem generate_create_ok (cfg : GenConfig) (st : RateState) (now : Nat)
    (table : String) (cols : List ColumnDef) (pk : Option String)
    (fks : List ForeignKey) (uid : Option String) (q : GeneratedQuery)
    (st2 : RateState)
    (h : generate_create_table_query cfg st now table cols pk fks uid
      = (.ok q, st2)) :
    q = buildCreate cfg.dialect table cols pk fks := by
  cases hch : createCheck cfg.security_level table cols pk fks with
  | error e =>
    rw [generate_create_err cfg st now table cols pk fks uid e hch] at h
    have := congrArg Prod.fst h
    simp at this
  | ok u =>
    cases u
    rw [generate_create_ok_path cfg st now table cols pk fks uid hch] at h
    exact withRateLimit_ok _ _ _ _ _ _ _ h

theorem generate_insert_ok (cfg : GenConfig) (st : RateState) (now : Nat)
    (table : String) (cols : List (String × String)) (returning : List String)
    (uid : Option String) (q : GeneratedQuery) (st2 : RateState)
    (h : generate_insert_query cfg st now table cols returning uid
      = (.ok q, st2)) :
    q = buildInsert cfg.dialect table cols returning := by
  cases hch : insertCheck cfg.security_level table (cols.map (·.1)) returning with
  | error e =>
    rw [generate_insert_err cfg st now table cols returning uid e hch] at h
    have := congrArg Prod.fst h
    simp at this
  | ok u =>
    cases u
    rw [generate_insert_ok_path cfg st now table cols returning uid hch] at h
    exact withRateLimit_ok _ _ _ _ _ _ _ h

theorem generate_update_ok (cfg : GenConfig) (st : RateState) (now : Nat)
    (table : String) (setCols : List (String × String)) (conds : List Cond)
    (uid : Option String) (q : GeneratedQuery) (st2 : RateState)
    (h : generate_update_query cfg st now table setCols conds uid
      = (.ok q, st2)) :
    q = buildUpdate cfg.dialect table setCols conds := by
  cases hch : updateCheck cfg.security_level table (setCols.map (·.1)) conds with
  | error e =>
    rw [generate_update_err cfg st now table setCols conds uid e hch] at h
    have := congrArg Prod.fst h
    simp at this
  | ok u =>
    cases u
    rw [generate_update_ok_path cfg st now table setCols conds uid hch] at h
    exact withRateLimit_ok _ _ _ _ _ _ _ h

theorem generate_delete_ok (cfg : GenConfig) (st : RateState) (now : Nat)
    (table : String) (conds : List Cond) (uid : Option String)
    (q : GeneratedQuery) (st2 : RateState)
    (h : generate_delete_query cfg st now table conds uid = (.ok q, st2)) :
    q = buildDelete cfg.dialect table conds := by
  cases hch : deleteCheck cfg.security_level table conds with
  | error e =>
    rw [generate_delete_err cfg st now table conds uid e hch] at h
    have := congrArg Prod.fst h
    simp at this
  | ok u =>
    cases u
    rw [generate_delete_ok_path cfg st now table conds uid hch] at h
    exact withRateLimit_ok _ _ _ _ _ _ _ h

theorem toNat_ofNat_small (n : Nat) (h : n < 55296) :
    (Char.ofNat n).toNat = n := by
  unfold Char.ofNat
  rw [dif_pos (Or.inl h)]
  rfl

theorem lowerC_toNat (c : Char) (h : 65 ≤ c.toNat ∧ c.toNat ≤ 90) :
    (lowerC c).toNat = c.toNat + 32 := by
  unfold lowerC
  rw [if_pos h]
  exact toNat_ofNat_small _ (by omega)

theorem lowerC_idem (c : Char) : lowerC (lowerC c) = lowerC c := by
  by_cases h : 65 ≤ c.toNat ∧ c.toNat ≤ 90
  · have h2 : ¬ (65 ≤ (lowerC c).toNat ∧ (lowerC c).toNat ≤ 90) := by
      rw [lowerC_toNat c h]
      omega
    show (if 65 ≤ (lowerC c).toNat ∧ (lowerC c).toNat ≤ 90
          then Char.ofNat ((lowerC c).toNat + 32) else lowerC c) = lowerC c
    rw [if_neg h2]
  · have hc : lowerC c = c := by
      unfold lowerC
      rw [if_neg h]
    rw [hc]
    exact hc

theorem lowerList_idem (l : List Char) :
    lowerList (lowerList l) = lowerList l := by
  unfold lowerList
  rw [List.map_map]
  exact List.map_congr_left (fun c _ => lowerC_idem c)

/-! ## Claim theorems -/

/-- C3: the rate limiter's admission check purges timestamps older than
`now - window_seconds`, admits and appends `now` when the remaining count is
strictly below `max_requests`, and otherwise rejects without mutating state;
in particular, with `max_requests = 5` and `window_seconds = 10`, ten
admission calls within one second for the same identity grant exactly the
first five and reject the remaining five. -/
theorem c3_rate_limiter (st : RateState) (id : String) (a w now : Nat) :
    (∀ t : Nat, t ∈ purge now w (lookupW st id)
      ↔ t ∈ lookupW st id ∧ now ≤ t + w)
    ∧ ((purge now w (lookupW st id)).length < a →
        (admitRequest st id a w now).1 = true
        ∧ lookupW (admitRequest st id a w now).2 id
            = purge now w (lookupW st id) ++ [now])
    ∧ (a ≤ (purge now w (lookupW st id)).length →
        admitRequest st id a w now = (false, st))
    ∧ admitSeq [] "alice" 5 10 [0, 0, 0, 0, 0, 1, 1, 1, 1, 1]
        = [true, true, true, true, true, false, false, false, false, false] := by
  refine ⟨fun t => mem_purge now w (lookupW st id) t, ?_, ?_, by decide⟩
  · intro hlt
    rcases admitRequest_cases st id a w now with ⟨_, h⟩ | ⟨hge, _⟩
    · rw [h]
      exact ⟨rfl, lookupW_setW st id _⟩
    · omega
  · intro hge
    rcases admitRequest_cases st id a w now with ⟨hlt, _⟩ | ⟨_, h⟩
    · omega
    · exact h

/-- C3 witness: a fresh identity with a positive budget is admitted and its
window records the call time. -/
theorem c3_rate_limiter_witness :
    (admitRequest [] "bob" 1 10 0).1 = true
    ∧ lookupW (admitRequest [] "bob" 1 10 0).2 "bob"
        = purge 0 10 (lookupW [] "bob") ++ [0] :=
  (c3_rate_limiter [] "bob" 1 10 0).2.1 (by decide)

/-- C5: detect_injection_attempt is a case-insensitive logical OR over the
fixed pattern classes with no scoring threshold; it fires on the four listed
attack strings and stays silent on the parameterized query. -/
theorem c5_injection_detection :
    detect_injection_attempt "'; DROP TABLE users--" = true
    ∧ detect_injection_attempt "' OR '1'='1" = true
    ∧ detect_injection_attempt "' UNION SELECT * FROM passwords--" = true
    ∧ detect_injection_attempt "1' WAITFOR DELAY '00:00:05'--" = true
    ∧ detect_injection_attempt "SELECT id, username FROM users WHERE status = $1"
        = false
    ∧ (∀ s : String, detect_injection_attempt s
        = (classQuoteEscape (lowerList s.data)
          || classTautology (lowerList s.data)
          || classStacked (lowerList s.data)
          || classUnion (lowerList s.data)
          || classTiming (lowerList s.data)
          || classPrivileged (lowerList s.data)))
    ∧ (∀ s : String,
        detect_injection_attempt ⟨lowerList s.data⟩
          = detect_injection_attempt s) := by
  refine ⟨by decide, by decide, by decide, by decide, by decide,
    fun s => rfl, fun s => ?_⟩
  show detectCore (lowerList (String.data ⟨lowerList s.data⟩))
    = detectCore (lowerList s.data)
  rw [show String.data (⟨lowerList s.data⟩ : String) = lowerList s.data from rfl]
  rw [lowerList_idem]

/-- C7: validate_integer returns every in-range value unchanged, bounds
inclusive, and fails with OutOfRange exactly outside the bounds. -/
theorem c7_validate_integer (v lo hi : Int) :
    (lo ≤ v → v ≤ hi → validate_integer v lo hi = .ok v)
    ∧ (v < lo ∨ hi < v → validate_integer v lo hi = .error .outOfRange) := by
  constructor
  · intro h1 h2
    unfold validate_integer
    rw [if_neg (by omega)]
  · intro h
    unfold validate_integer
    rw [if_pos (by omega)]

/-- C7 witness: both boundary values succeed and a value above the maximum
fails. -/
theorem c7_validate_integer_witness :
    validate_integer 1 1 100 = .ok 1
    ∧ validate_integer 100 1 100 = .ok 100
    ∧ validate_integer 150 1 100 = .error .outOfRange :=
  ⟨(c7_validate_integer 1 1 100).1 (by decide) (by decide),
   (c7_validate_integer 100 1 100).1 (by decide) (by decide),
   (c7_validate_integer 150 1 100).2 (by decide)⟩

/-- C9: optimize_query returns the input text unchanged as the first
component of its result, paired with the heuristic suggestions; it never
modifies the query. -/
theorem c9_optimize_query_identity (s : String) :
    (optimize_query s).1 = s ∧ (optimize_query s).2 = optimizeSuggestions s :=
  ⟨rfl, rfl⟩

/-- C10: generate_select_query called with the `*` wildcard column returns a
GeneratedQuery rather than failing, at every security level including
STRICT: the wildcard passes the generator's structural column validation
even though it does not match the identifier grammar. -/
theorem c10_wildcard_column (lvl : SecurityLevel) :
    validate_column lvl "*" = .ok "*"
    ∧ identOk "*" = false
    ∧ (∀ (d : DatabaseType) (st : RateState) (now : Nat),
        (generate_select_query ⟨d, lvl, false, 5, 10⟩ st now
          ["users"] ["*"] [] [] [] none [] (some 10) (some "test")).1
          = .ok (buildSelect d ["users"] ["*"] [] [] [] none [] (some 10))) := by
  refine ⟨rfl, by decide, ?_⟩
  intro d st now
  rw [generate_select_ok_path _ st now _ _ _ _ _ _ _ _ _
    (by cases lvl <;> rfl)]
  rw [wrl_disabled _ _ _ _ _ rfl]

theorem mfree_of_map_fst (d : DatabaseType) (lvl : SecurityLevel)
    (l : List (String × String))
    (h : ∀ p ∈ l, identOkAt lvl p.1 = true) :
    ∀ s ∈ l.map (·.1), mfree (markerChar d) s.data := by
  intro s hs
  obtain ⟨p, hp, he⟩ := List.mem_map.mp hs
  subst he
  exact mfree_of_identOkAt d lvl p.1 (h p hp)

/-- C1: a GeneratedQuery's sql_text carries the caller's values only as
placeholder tokens: the tokens extracted left-to-right from the text are
exactly the dialect's placeholders numbered 1, 2, ..., their count equals the
length of `parameters`, `parameters` lists the values in the same emission
order, the numbering restarts at the first position for every generated
statement, and the text itself never depends on the values. -/
theorem c1_placeholder_round_trip (d : DatabaseType) (lvl : SecurityLevel)
    (table : String) (tables selCols : List String)
    (setCols insCols : List (String × String)) (conds : List Cond)
    (returning : List String) (limit : Option Nat)
    (joins : List Join) (groupBy : List String) (having : Option HavingCond)
    (orderBy : List (String × String)) (createCols : List ColumnDef)
    (pk : Option String) (fks : List ForeignKey)
    (htable : identOkAt lvl table = true)
    (htables : ∀ s ∈ tables, identOkAt lvl s = true)
    (hselCols : ∀ s ∈ selCols, identOkAt lvl s = true ∨ s = "*")
    (hsetCols : ∀ p ∈ setCols, identOkAt lvl p.1 = true)
    (hinsCols : ∀ p ∈ insCols, identOkAt lvl p.1 = true)
    (hret : ∀ s ∈ returning, identOkAt lvl s = true)
    (hcol : ∀ c ∈ conds, identOkAt lvl c.col = true)
    (hop : ∀ c ∈ conds, c.op ∈ opWhitelist)
    (hjoins : ∀ j ∈ joins, j.jtype ∈ joinTypeWhitelist
      ∧ identOkAt lvl j.jtable = true ∧ identOkAt lvl j.onLeft = true
      ∧ identOkAt lvl j.onRight = true)
    (hgroup : ∀ g ∈ groupBy, identOkAt lvl g = true)
    (hhaving : ∀ h : HavingCond, having = some h →
      h.fn ∈ aggWhitelist ∧ identOkAt lvl h.arg = true ∧ h.op ∈ opWhitelist)
    (horder : ∀ p ∈ orderBy, identOkAt lvl p.1 = true
      ∧ p.2 ∈ orderDirWhitelist)
    (hcreate : ∀ c ∈ createCols, identOkAt lvl c.name = true
      ∧ mfree (markerChar d) c.ctype.data
      ∧ (∀ x, c.dflt = some x → mfree (markerChar d) x.data))
    (hpk : ∀ k, pk = some k → identOkAt lvl k = true)
    (hfks : ∀ f ∈ fks, identOkAt lvl f.column = true
      ∧ identOkAt lvl f.refTable = true
      ∧ identOkAt lvl f.refColumn = true) :
    (extractPH (markerChar d) (buildUpdate d table setCols conds).sql_text.data
      = phSeq d 1 (buildUpdate d table setCols conds).parameters.length
     ∧ (buildUpdate d table setCols conds).parameters
      = setCols.map (·.2) ++ conds.map (·.value))
    ∧ (extractPH (markerChar d)
        (buildInsert d table insCols returning).sql_text.data
      = phSeq d 1 (buildInsert d table insCols returning).parameters.length
     ∧ (buildInsert d table insCols returning).parameters
      = insCols.map (·.2))
    ∧ (extractPH (markerChar d)
        (buildSelect d tables selCols joins conds groupBy having orderBy
          limit).sql_text.data
      = phSeq d 1 (buildSelect d tables selCols joins conds groupBy having
          orderBy limit).parameters.length
     ∧ (buildSelect d tables selCols joins conds groupBy having orderBy
          limit).parameters
      = conds.map (·.value) ++ havingParams having)
    ∧ (extractPH (markerChar d) (buildDelete d table conds).sql_text.data
      = phSeq d 1 (buildDelete d table conds).parameters.length
     ∧ (buildDelete d table conds).parameters = conds.map (·.value))
    ∧ (extractPH (markerChar d)
        (buildCreate d table createCols pk fks).sql_text.data
      = phSeq d 1 (buildCreate d table createCols pk fks).parameters.length
     ∧ (buildCreate d table createCols pk fks).parameters = [])
    ∧ (∀ (setB : List (String × String)) (condsB : List Cond),
        setCols.map (·.1) = setB.map (·.1) →
        conds.map (fun c => (c.col, c.op))
          = condsB.map (fun c => (c.col, c.op)) →
        (buildUpdate d table setCols conds).sql_text
          = (buildUpdate d table setB condsB).sql_text)
    ∧ (∀ insB : List (String × String),
        insCols.map (·.1) = insB.map (·.1) →
        (buildInsert d table insCols returning).sql_text
          = (buildInsert d table insB returning).sql_text)
    ∧ (∀ (condsB : List Cond) (havingB : Option HavingCond),
        conds.map (fun c => (c.col, c.op))
          = condsB.map (fun c => (c.col, c.op)) →
        having.map (fun x => (x.fn, x.arg, x.op))
          = havingB.map (fun x => (x.fn, x.arg, x.op)) →
        (buildSelect d tables selCols joins conds groupBy having orderBy
          limit).sql_text
          = (buildSelect d tables selCols joins condsB groupBy havingB
              orderBy limit).sql_text)
    ∧ (∀ (cfg : GenConfig) (st : RateState) (now : Nat) (uid : Option String)
        (q : GeneratedQuery) (st2 : RateState),
        (generate_update_query cfg st now table setCols conds uid
            = (.ok q, st2) → q = buildUpdate cfg.dialect table setCols conds)
        ∧ (generate_insert_query cfg st now table insCols returning uid
            = (.ok q, st2) →
            q = buildInsert cfg.dialect table insCols returning)
        ∧ (generate_select_query cfg st now tables selCols joins conds
            groupBy having orderBy limit uid = (.ok q, st2) →
            q = buildSelect cfg.dialect tables selCols joins conds groupBy
              having orderBy limit)
        ∧ (generate_delete_query cfg st now table conds uid = (.ok q, st2) →
            q = buildDelete cfg.dialect table conds)
        ∧ (generate_create_table_query cfg st now table createCols pk fks uid
            = (.ok q, st2) →
            q = buildCreate cfg.dialect table createCols pk fks)) := by
  have ht := mfree_of_identOkAt d lvl table htable
  have htbl : ∀ s ∈ tables, mfree (markerChar d) s.data :=
    fun s hs => mfree_of_identOkAt d lvl s (htables s hs)
  have hsel : ∀ s ∈ selCols, mfree (markerChar d) s.data :=
    fun s hs => mfree_of_columnAt d lvl s (hselCols s hs)
  have hcol2 : ∀ c ∈ conds, mfree (markerChar d) c.col.data :=
    fun c hc => mfree_of_identOkAt d lvl c.col (hcol c hc)
  have hop2 : ∀ c ∈ conds, mfree (markerChar d) c.op.data :=
    fun c hc => mfree_of_op d c.op (hop c hc)
  have hretm : ∀ s ∈ returning, mfree (markerChar d) s.data :=
    fun s hs => mfree_of_identOkAt d lvl s (hret s hs)
  have hjm : mfree (markerChar d) (joinsChunk joins) :=
    mfree_joinsChunk d joins (fun j hj => ⟨(hjoins j hj).1,
      mfree_of_identOkAt d lvl _ (hjoins j hj).2.1,
      mfree_of_identOkAt d lvl _ (hjoins j hj).2.2.1,
      mfree_of_identOkAt d lvl _ (hjoins j hj).2.2.2⟩)
  have hgm : mfree (markerChar d) (groupByTail groupBy) :=
    mfree_groupByTail d groupBy
      (fun g hg => mfree_of_identOkAt d lvl g (hgroup g hg))
  have hhm : ∀ h : HavingCond, having = some h →
      mfree (markerChar d) h.fn.data ∧ mfree (markerChar d) h.arg.data
        ∧ mfree (markerChar d) h.op.data :=
    fun h hh => ⟨mfree_of_agg d _ (hhaving h hh).1,
      mfree_of_identOkAt d lvl _ (hhaving h hh).2.1,
      mfree_of_op d _ (hhaving h hh).2.2⟩
  have hom : mfree (markerChar d) (orderByTail orderBy) :=
    mfree_orderByTail d orderBy
      (fun p hp => ⟨mfree_of_identOkAt d lvl _ (horder p hp).1,
        mfree_of_orderDir d _ (horder p hp).2⟩)
  refine ⟨⟨?_, rfl⟩, ⟨?_, rfl⟩, ⟨?_, rfl⟩, ⟨?_, rfl⟩, ⟨?_, rfl⟩,
    ?_, ?_, ?_, ?_⟩
  · have hx := extract_renderUpdate d table (setCols.map (·.1)) conds ht
      (mfree_of_map_fst d lvl setCols hsetCols) hcol2 hop2
    rw [List.length_map] at hx
    have hlen : (buildUpdate d table setCols conds).parameters.length
        = setCols.length + conds.length := by
      simp [buildUpdate]
    rw [hlen]
    exact hx
  · have hx := extract_renderInsert d table (insCols.map (·.1)) returning ht
      (mfree_of_map_fst d lvl insCols hinsCols) hretm
    rw [List.length_map] at hx
    have hlen : (buildInsert d table insCols returning).parameters.length
        = insCols.length := by
      simp [buildInsert]
    rw [hlen]
    exact hx
  · have hx := extract_renderSelect d tables selCols joins conds groupBy
      having orderBy limit htbl hsel hjm hcol2 hop2 hgm hhm hom
    have hlen : (buildSelect d tables selCols joins conds groupBy having
        orderBy limit).parameters.length
        = conds.length + (havingParams having).length := by
      simp [buildSelect]
    rw [hlen]
    exact hx
  · have hx := extract_renderDelete d table conds ht hcol2 hop2
    have hlen : (buildDelete d table conds).parameters.length
        = conds.length := by
      simp [buildDelete]
    rw [hlen]
    exact hx
  · have hcolm := mfree_colDefsJoin d createCols
      (fun c hc => ⟨mfree_of_identOkAt d lvl _ (hcreate c hc).1,
        (hcreate c hc).2.1, (hcreate c hc).2.2⟩)
    have hpkm := mfree_pkChunk d pk
      (fun k hk => mfree_of_identOkAt d lvl _ (hpk k hk))
    have hfkm := mfree_fksChunk d fks
      (fun f hf => ⟨mfree_of_identOkAt d lvl _ (hfks f hf).1,
        mfree_of_identOkAt d lvl _ (hfks f hf).2.1,
        mfree_of_identOkAt d lvl _ (hfks f hf).2.2⟩)
    exact extract_renderCreate d table createCols pk fks ht hcolm hpkm hfkm
  · intro setB condsB h1 h2
    show (⟨renderUpdate d table (setCols.map (·.1)) conds⟩ : String)
      = ⟨renderUpdate d table (setB.map (·.1)) condsB⟩
    rw [h1]
    unfold renderUpdate
    rw [whereTail_congr d ((setB.map (·.1)).length + 1) conds condsB h2]
  · intro insB h1
    show (⟨renderInsert d table (insCols.map (·.1)) returning⟩ : String)
      = ⟨renderInsert d table (insB.map (·.1)) returning⟩
    rw [h1]
  · intro condsB havingB h1 h2
    show (⟨renderSelect d tables selCols joins conds groupBy having orderBy
        limit⟩ : String)
      = ⟨renderSelect d tables selCols joins condsB groupBy havingB orderBy
          limit⟩
    have hlen : conds.length = condsB.length := by
      have := congrArg List.length h1
      simpa using this
    unfold renderSelect
    rw [whereTail_congr d 1 conds condsB h1, hlen,
      havingTail_congr d (condsB.length + 1) having havingB h2]
  · intro cfg st now uid q st2
    exact ⟨generate_update_ok cfg st now table setCols conds uid q st2,
      generate_insert_ok cfg st now table insCols returning uid q st2,
      generate_select_ok cfg st now tables selCols joins conds groupBy
        having orderBy limit uid q st2,
      generate_delete_ok cfg st now table conds uid q st2,
      generate_create_ok cfg st now table createCols pk fks uid q st2⟩

/-- C1 witness: the UPDATE of the repository's fourth example, three SET
columns and two WHERE conditions, extracts exactly the placeholders one to
five and lists the five bound values in emission order. -/
theorem c1_placeholder_round_trip_witness :
    extractPH (markerChar .postgresql)
      (buildUpdate .postgresql "products"
        [("price", "v1"), ("stock_quantity", "v2"), ("updated_at", "v3")]
        [⟨"product_id", "=", "v4"⟩, ⟨"category_id", "=", "v5"⟩]).sql_text.data
      = phSeq .postgresql 1
        (buildUpdate .postgresql "products"
          [("price", "v1"), ("stock_quantity", "v2"), ("updated_at", "v3")]
          [⟨"product_id", "=", "v4"⟩,
           ⟨"category_id", "=", "v5"⟩]).parameters.length
    ∧ (buildUpdate .postgresql "products"
        [("price", "v1"), ("stock_quantity", "v2"), ("updated_at", "v3")]
        [⟨"product_id", "=", "v4"⟩, ⟨"category_id", "=", "v5"⟩]).parameters
      = [("price", "v1"), ("stock_quantity", "v2"),
          ("updated_at", "v3")].map (·.2)
        ++ [⟨"product_id", "=", "v4"⟩,
            ⟨"category_id", "=", "v5"⟩].map (Cond.value) :=
  (c1_placeholder_round_trip .postgresql .permissive "products"
    ["customers"] ["customer_id", "customer_name", "*"]
    [("price", "v1"), ("stock_quantity", "v2"), ("updated_at", "v3")]
    [("username", "u")]
    [⟨"product_id", "=", "v4"⟩, ⟨"category_id", "=", "v5"⟩] [] (some 100)
    [⟨"LEFT", "orders", "customers.customer_id", "orders.customer_id"⟩]
    ["customers.customer_id"]
    (some ⟨"COUNT", "orders.order_id", ">=", "v6"⟩)
    [("total_revenue", "DESC")]
    [⟨"order_id", "SERIAL", true, none⟩,
     ⟨"status", "VARCHAR(50)", false, some "'pending'"⟩] (some "order_id")
    [⟨"customer_id", "customers", "customer_id"⟩]
    (by decide) (by decide) (by decide) (by decide) (by decide) (by decide)
    (by decide) (by decide) (by decide) (by decide)
    (by intro h hh; injection hh with he; subst he; exact ⟨by decide,
      by decide, by decide⟩)
    (by decide)
    (by
      intro c hc
      simp only [List.mem_cons, List.not_mem_nil, or_false] at hc
      rcases hc with h | h <;> subst h
      · exact ⟨by decide, by decide, fun x hx => nomatch hx⟩
      · exact ⟨by decide, by decide,
          fun x hx => (Option.some.inj hx) ▸ (by decide)⟩)
    (by intro k hk; injection hk with he; subst he; decide)
    (by decide)).1

/-- C4: a three-column INSERT carries the constructing dialect's
placeholders: `$1, $2, $3` for POSTGRESQL, `?, ?, ?` for MYSQL and SQLITE,
`@param1, @param2, @param3` for MSSQL, and `:param1, :param2, :param3` for
ORACLE. -/
theorem c4_dialect_placeholder_styles (d : DatabaseType) (table : String)
    (cols : List (String × String)) (returning : List String)
    (htable : identOk table = true)
    (hcols : ∀ p ∈ cols, identOk p.1 = true)
    (hret : ∀ s ∈ returning, identOk s = true)
    (h3 : cols.length = 3) :
    extractPH (markerChar d)
      (buildInsert d table cols returning).sql_text.data
      = match d with
        | .postgresql => ["$1".data, "$2".data, "$3".data]
        | .mysql => ["?".data, "?".data, "?".data]
        | .sqlite => ["?".data, "?".data, "?".data]
        | .mssql => ["@param1".data, "@param2".data, "@param3".data]
        | .oracle => [":param1".data, ":param2".data, ":param3".data] := by
  have hx := extract_renderInsert d table (cols.map (·.1)) returning
    (mfree_of_identOk d table htable)
    (mfree_of_map_fst d .normal cols hcols)
    (fun s hs => mfree_of_identOk d s (hret s hs))
  rw [List.length_map, h3] at hx
  cases d <;> exact hx.trans (by decide)

/-- C4 witness: the INSERT of the parameter-style test, three columns on
each dialect, at MSSQL yields the `@param` tokens. -/
theorem c4_dialect_placeholder_styles_witness :
    extractPH (markerChar .mssql)
      (buildInsert .mssql "users"
        [("username", "u"), ("email", "e"), ("age", "a")] []).sql_text.data
      = ["@param1".data, "@param2".data, "@param3".data] :=
  c4_dialect_placeholder_styles .mssql "users"
    [("username", "u"), ("email", "e"), ("age", "a")] []
    (by decide) (by decide) (by decide) (by decide)

theorem containsSub_mem (needle hay : List Char)
    (h : containsSub needle hay = true) : ∀ c ∈ needle, c ∈ hay := by
  unfold containsSub at h
  induction hay with
  | nil =>
    unfold scanPred at h
    intro c hc
    rw [List.isPrefixOf_iff_prefix] at h
    rw [List.prefix_nil.mp h] at hc
    simp at hc
  | cons a t ih =>
    unfold scanPred at h
    rcases Bool.or_eq_true_iff.mp h with h1 | h1
    · intro c hc
      rw [List.isPrefixOf_iff_prefix] at h1
      exact h1.sublist.subset (hc)
    · intro c hc
      exact List.mem_cons_of_mem a (ih h1 c hc)

theorem identOk_all_tail (s : String) (h : identOk s = true) :
    ∀ c ∈ s.data, identTailChar c = true := by
  unfold identOk at h
  cases hs : s.data with
  | nil =>
    intro c hc
    simp at hc
  | cons c0 t =>
    rw [hs] at h
    rcases Bool.and_eq_true_iff.mp h with ⟨h1, h2⟩
    intro c hc
    rcases List.mem_cons.mp hc with he | hm
    · subst he
      exact identHeadChar_tail c h1
    · simpa using List.all_eq_true.mp h2 c hm

/-- C6: validate_identifier at the default level accepts exactly the strings
matching `^[A-Za-z_][A-Za-z0-9_]*$` up to the maximum length, returns every
accepted identifier unchanged, and fails with InvalidIdentifier for every
string containing whitespace, a semicolon, a single quote or a `--` comment
marker, and for empty input. -/
theorem c6_validate_identifier (s : String) :
    (validate_identifier s .normal = .ok s
      ↔ identOk s = true ∧ s.length ≤ 64)
    ∧ identOk s = specIdentPattern s
    ∧ (∀ r : String, validate_identifier s .normal = .ok r → r = s)
    ∧ ((∃ c ∈ s.data, c.isWhitespace = true ∨ c = ';' ∨ c = '\'')
        ∨ containsSub ("--".data) s.data = true ∨ s = "" →
        validate_identifier s .normal = .error .invalidIdentifier) := by
  have heq : validate_identifier s .normal
      = if identOk s = true ∧ s.length ≤ 64 then Except.ok s
        else Except.error .invalidIdentifier := rfl
  refine ⟨?_, rfl, ?_, ?_⟩
  · rw [heq]
    constructor
    · intro h
      by_cases hc : identOk s = true ∧ s.length ≤ 64
      · exact hc
      · rw [if_neg hc] at h
        exact absurd h (by simp)
    · intro hc
      rw [if_pos hc]
  · intro r h
    rw [heq] at h
    split at h
    · exact (Except.ok.inj h).symm
    · exact absurd h (by simp)
  · intro hbad
    have hnot : ¬ (identOk s = true ∧ s.length ≤ 64) := by
      rintro ⟨hok, -⟩
      have hall := identOk_all_tail s hok
      rcases hbad with ⟨c, hc, hcp⟩ | hsub | hempty
      · have htc := hall c hc
        rcases hcp with h | h | h
        · simp only [Char.isWhitespace, Bool.or_eq_true,
            decide_eq_true_eq] at h
          rcases h with ((h | h) | h) | h <;> subst h <;>
            exact absurd htc (by decide)
        · subst h
          exact absurd htc (by decide)
        · subst h
          exact absurd htc (by decide)
      · have hm : '-' ∈ s.data := containsSub_mem _ _ hsub '-' (by decide)
        exact absurd (hall '-' hm) (by decide)
      · subst hempty
        exact absurd hok (by decide)
    rw [heq, if_neg hnot]

/-- C6 witness: a well-formed identifier is returned unchanged and the
strings of the repository's validation test are rejected. -/
theorem c6_validate_identifier_witness :
    validate_identifier "user_id" .normal = .ok "user_id"
    ∧ validate_identifier "DROP TABLE" .normal = .error .invalidIdentifier
    ∧ validate_identifier "users; --" .normal = .error .invalidIdentifier
    ∧ validate_identifier "" .normal = .error .invalidIdentifier :=
  ⟨(c6_validate_identifier "user_id").1.mpr (by decide),
   (c6_validate_identifier "DROP TABLE").2.2.2
     (Or.inl ⟨' ', by decide, Or.inl (by decide)⟩),
   (c6_validate_identifier "users; --").2.2.2
     (Or.inl ⟨';', by decide, Or.inr (Or.inl rfl)⟩),
   (c6_validate_identifier "").2.2.2 (Or.inr (Or.inr rfl))⟩

/-- C8: sanitize_for_logging never fails: it is total, truncates the
redacted text to the maximum length appending the truncation marker exactly
when truncation occurred, and on the test vectors it redacts the
payment-card, SSN and password payloads while dropping the original
digits. -/
theorem c8_sanitize_for_logging (s : String) (m : Nat) :
    (sanitize_for_logging s m).length ≤ m + truncMarker.length
    ∧ ((replacePwd (replaceSSN (replaceCard s.data))).length ≤ m →
        sanitize_for_logging s m
          = ⟨replacePwd (replaceSSN (replaceCard s.data))⟩)
    ∧ (m < (replacePwd (replaceSSN (replaceCard s.data))).length →
        sanitize_for_logging s m
          = ⟨(replacePwd (replaceSSN (replaceCard s.data))).take m
              ++ truncMarker⟩)
    ∧ containsSub cardToken
        ((sanitize_for_logging "My card is 4532-1234-5678-9010" 100).data)
        = true
    ∧ containsSub ("4532-1234-5678-9010".data)
        ((sanitize_for_logging "My card is 4532-1234-5678-9010" 100).data)
        = false
    ∧ containsSub ssnToken
        ((sanitize_for_logging "My SSN is 123-45-6789" 100).data) = true
    ∧ containsSub ("password=[REDACTED]".data)
        ((sanitize_for_logging "password=secret123" 100).data) = true := by
  have heq : sanitize_for_logging s m
      = if (replacePwd (replaceSSN (replaceCard s.data))).length ≤ m
        then ⟨replacePwd (replaceSSN (replaceCard s.data))⟩
        else ⟨(replacePwd (replaceSSN (replaceCard s.data))).take m
              ++ truncMarker⟩ := rfl
  refine ⟨?_, ?_, ?_, by decide, by decide, by decide, by decide⟩
  · rw [heq]
    split
    · next hle =>
      show (replacePwd (replaceSSN (replaceCard s.data))).length
        ≤ m + truncMarker.length
      omega
    · next hgt =>
      show ((replacePwd (replaceSSN (replaceCard s.data))).take m
        ++ truncMarker).length ≤ m + truncMarker.length
      rw [List.length_append, List.length_take]
      omega
  · intro h
    rw [heq, if_pos h]
  · intro h
    rw [heq, if_neg (by omega)]

set_option maxRecDepth 8000 in
/-- C8 witness: a 150-character input at maximum length 100 is truncated
with the marker appended. -/
theorem c8_sanitize_for_logging_witness :
    sanitize_for_logging ⟨List.replicate 150 'a'⟩ 100
      = ⟨(replacePwd (replaceSSN (replaceCard
          (List.replicate 150 'a')))).take 100 ++ truncMarker⟩ :=
  (c8_sanitize_for_logging ⟨List.replicate 150 'a'⟩ 100).2.2.1 (by decide)

end SQLGen
